import Mathlib

/-!
Verification development for the AudioChat backend
(`backend/audio_processing.py`, `backend/parallel_processor.py`,
`backend/cache_manager.py`).

Samples are modelled as exact rationals (`ℚ`): the Python code computes with
IEEE floats, but every property checked here is about the exact arithmetic
structure of the code (clamps, index bookkeeping, counters), not about
rounding.  External library calls (`scipy.signal`, `librosa`, `np.random`,
`np.tanh`, `10 ** x`) are modelled as uninterpreted functions collected in an
`ExtLib` context, together with the one mathematical fact the code relies on
(`10 ** x > 0`).  Python exceptions that the code catches per effect
(returning the unmodified input) are modelled by explicit guards returning
the input; exceptions that propagate are modelled with `Option`.
-/

/-- Python `int(q)` for a rational: truncation toward zero
(`Int.tdiv` truncates toward zero). -/
def pyInt (q : ℚ) : ℤ := q.num.tdiv (q.den : ℤ)

/-- `np.max(np.abs(xs))`, with the convention `peakAbs [] = 0`
(on an empty array `np.max` raises — in every use below the surrounding
`try/except` then returns the input, which on an empty array coincides
with returning the computed empty result, so the convention is harmless). -/
def peakAbs (xs : List ℚ) : ℚ := xs.foldr (fun x m => max |x| m) 0

/-- The final safety clamp shared by eq / compression / reverb / delay /
distortion / stereo-width:
`if np.max(np.abs(o)) > 0.99: o = o / np.max(np.abs(o)) * 0.99`. -/
def clamp99 (xs : List ℚ) : List ℚ :=
  if peakAbs xs > 99/100 then xs.map (fun x => x / peakAbs xs * (99/100)) else xs

/-- `np.linspace(a, b, n)` (endpoint included; `n = 1` gives `[a]`). -/
def linspace (a b : ℚ) (n : ℕ) : List ℚ :=
  if n ≤ 1 then List.replicate n a
  else (List.range n).map (fun k : ℕ => a + (b - a) * (k : ℚ) / ((n : ℚ) - 1))

/-- Length of the Python slice `xs[a:b]` (bounds clipped, empty when `b ≤ a`). -/
def pySliceTake (xs : List ℚ) (a b : ℕ) : List ℚ :=
  (xs.drop a).take (b - a)

/-- Python slice assignment `out[a:b] = vals` on a 1-D array: the slice
bounds are clipped to the array, and numpy requires `len(vals)` to equal the
length of the (clipped) slice, raising `ValueError` otherwise — modelled as
`none`.  (numpy's size-1 broadcasting is not modelled; no theorem below
exercises it.) -/
def assignSlice (out : List ℚ) (a b : ℕ) (vals : List ℚ) : Option (List ℚ) :=
  let lo := min a out.length
  let hi := max lo (min b out.length)
  if vals.length = hi - lo then
    some (out.take lo ++ vals ++ out.drop hi)
  else
    none

/-- Parameter values carried by an effect spec: the chains built by
`parse_instructions` hold numbers, and the `filter` effect additionally
reads a string-valued `"type"` key. -/
inductive PVal where
  | num (q : ℚ)
  | str (s : String)
deriving DecidableEq, Repr

/-- Python `dict` as an insertion-ordered association list with unique keys
(the operations below preserve uniqueness). -/
abbrev PDict := List (String × PVal)

/-- `d[k] = v` on a Python dict: overwrite in place if the key exists
(keeping its position), otherwise append. -/
def dictSet (d : PDict) (k : String) (v : PVal) : PDict :=
  if d.any (fun kv => kv.1 = k) then
    d.map (fun kv => if kv.1 = k then (k, v) else kv)
  else
    d ++ [(k, v)]

/-- `d.get(k, default)` followed by use in a numeric expression.
`some q` is the numeric value (the default when the key is absent);
`none` records that the value was a string, so that the first arithmetic
use raises `TypeError` and the effect's `try/except` returns its input.
(The exotic Python corner `int(str * n)` for digit strings is not modelled;
no theorem exercises string-valued numeric parameters.) -/
def getNum (d : PDict) (k : String) (dflt : ℚ) : Option ℚ :=
  match d.find? (fun kv => kv.1 = k) with
  | none => some dflt
  | some (_, .num q) => some q
  | some (_, .str _) => none

/-- External collaborators used by the effect library, modelled as
uninterpreted total functions: these are third-party library calls
(`scipy`, `librosa`, `numpy`), not code of this repository. -/
structure ExtLib where
  /-- `10 ** (x)` (Python float power with base 10). -/
  exp10 : ℚ → ℚ
  /-- `10 ** x` is strictly positive — the one fact about the dB→linear
  conversion the code relies on. -/
  exp10_pos : ∀ q : ℚ, 0 < exp10 q
  /-- `x ** y` for positive base `x` (compression/gate gain curves). -/
  rpow : ℚ → ℚ → ℚ
  /-- `np.tanh` (distortion soft clip). -/
  tanh : ℚ → ℚ
  /-- `scipy.signal.butter(2, ...)` + `scipy.signal.lfilter` as one map
  from the design parameters and the input signal to the filtered signal.
  `.inl w` is lowpass at normalized cutoff `w`, `.inr (.inl w)` highpass,
  `.inr (.inr (lo, hi))` bandpass. -/
  lfilterButter2 : (ℚ ⊕ ℚ ⊕ ℚ × ℚ) → List ℚ → List ℚ
  /-- The synthetic reverb impulse response
  `np.linspace(1,0,n) ** damping * np.random.randn(n) * 0.5` — the random
  draw makes it an arbitrary list of the requested length. -/
  reverbIR : ℕ → ℚ → List ℚ
  /-- `librosa.effects.pitch_shift`. -/
  pitchShift : ℕ → ℚ → List ℚ → List ℚ
  /-- `librosa.effects.time_stretch`. -/
  timeStretch : ℚ → List ℚ → List ℚ
  /-- The `librosa.stft` / spectral-gate / `librosa.istft(length=len(x))`
  body of `apply_noise_reduction` (lines 713-731), uninterpreted. -/
  noiseReduction : ℚ → ℚ → List ℚ → List ℚ

/-! ## The parallel chunk engine (`parallel_processor.py`) -/

/-- The chunk-splitting loop of `process_audio_parallel` (lines 64-72),
with explicit fuel so that the recursion is structural (the kernel can
then evaluate it): `for start_pos in range(0, n, step):
end = min(start_pos + chunkSize, n); record (start_pos, end);
if end == n: break`.  With `0 < step`, `n - start` units of fuel always
suffice, so `splitPositions` below never exhausts the fuel early. -/
def splitPositionsAux (chunkSize step : ℕ) : ℕ → ℕ → ℕ → List (ℕ × ℕ)
  | 0, _, _ => []
  | fuel + 1, n, start =>
    if start < n ∧ 0 < step then
      let e := min (start + chunkSize) n
      if e = n then [(start, e)]
      else (start, e) :: splitPositionsAux chunkSize step fuel n (start + step)
    else []

/-- The chunk-splitting loop of `process_audio_parallel` (lines 64-72). -/
def splitPositions (n chunkSize step : ℕ) (start : ℕ) : List (ℕ × ℕ) :=
  splitPositionsAux chunkSize step (n - start) n start

/-- The merge loop of `_merge_chunks_with_crossfade` for chunks after the
first (lines 133-157), carrying `prev_end = positions[i-1][1]`.
`none` models a propagating numpy `ValueError` on a length-mismatched
slice assignment. -/
def mergeLoop : List (List ℚ) → List (ℕ × ℕ) → ℕ → List ℚ → Option (List ℚ)
  | [], [], _, out => some out
  | c :: cs, (s, e) :: ps, prevEnd, out =>
    let oe := min prevEnd e
    -- overlap_length = overlap_end - overlap_start; `ℕ`-subtraction
    -- truncates at 0, matching the `if overlap_length > 0` sign test.
    let L := oe - s
    if 0 < L then
      let fadeIn := linspace 0 1 L
      let fadeOut := linspace 1 0 L
      let outSeg := pySliceTake out s oe
      let cSeg := c.take L
      if outSeg.length = L ∧ cSeg.length = L then
        let blended := List.zipWith (fun p q => p + q)
          (List.zipWith (fun x w => x * w) outSeg fadeOut)
          (List.zipWith (fun x w => x * w) cSeg fadeIn)
        match assignSlice out s oe blended with
        | none => none
        | some out1 =>
          match assignSlice out1 oe e (c.drop L) with
          | none => none
          | some out2 => mergeLoop cs ps e out2
      else none
    else
      match assignSlice out s e c with
      | none => none
      | some out1 => mergeLoop cs ps e out1
  | _, _, _, _ => none

/-- `_merge_chunks_with_crossfade` (lines 110-159).  The `overlap_size`
parameter of the Python method is unused by its body (overlap lengths are
recomputed from the positions), so it is omitted here.
`positions[-1][1]` on an empty list raises `IndexError` — `none`. -/
def mergeChunksWithCrossfade (chunks : List (List ℚ)) (positions : List (ℕ × ℕ)) :
    Option (List ℚ) :=
  match hc : chunks, hp : positions with
  | c0 :: cs, (s0, e0) :: ps =>
    let outLen := (((s0, e0) :: ps).getLast (by simp)).2
    let out0 := List.replicate outLen (0 : ℚ)
    match assignSlice out0 s0 e0 c0 with
    | none => none
    | some out1 => mergeLoop cs ps e0 out1
  | _, _ => none

/-- `process_audio_parallel` (lines 32-108).  `f` abstracts
`process_func` applied to one chunk by a worker; `f c = none` models the
worker raising.  On the direct path (audio not longer than one chunk) the
exception propagates to the caller; on the chunked path the
`try/except` around `future.result()` substitutes the original chunk
(line 96).  Completion order of the futures is irrelevant because the
results are sorted by chunk index (line 99), so chunks are processed in
order here.  `chunkSize - overlapSize ≤ 0` makes Python's `range` raise
`ValueError` (step 0) or yield nothing so that `positions[-1]` raises
`IndexError` — both modelled as `none`.  (Negative `chunk_size` with
positive step would exercise Python's negative-index slicing; all theorems
below stay in the regime `0 ≤ overlap_size < chunk_size < len(audio)`.) -/
def processAudioParallel (f : List ℚ → Option (List ℚ)) (audio : List ℚ)
    (sampleRate : ℕ) (chunkDurationSeconds overlapSeconds : ℚ) : Option (List ℚ) :=
  let chunkSize : ℤ := pyInt (chunkDurationSeconds * sampleRate)
  let overlapSize : ℤ := pyInt (overlapSeconds * sampleRate)
  if (audio.length : ℤ) ≤ chunkSize then f audio
  else if chunkSize - overlapSize ≤ 0 then none
  else
    let cs := chunkSize.toNat
    let step := (chunkSize - overlapSize).toNat
    let positions := splitPositions audio.length cs step 0
    let chunks := positions.map (fun p => pySliceTake audio p.1 p.2)
    let processed := chunks.map (fun c => (f c).getD c)
    mergeChunksWithCrossfade processed positions

/-- Precondition for one chunk/position pair to merge into a buffer of
length `n`: the chunk has exactly its slot's length and the slot lies
inside the buffer. -/
def ChunkFits (n : ℕ) (c : List ℚ) (p : ℕ × ℕ) : Prop :=
  c.length = p.2 - p.1 ∧ p.1 ≤ p.2 ∧ p.2 ≤ n

/-- The locals of the chunked path of `process_audio_parallel`
(lines 60-73): the recorded positions, the chunk slices, and the processed
results with the original chunk substituted on worker failure (line 96). -/
def papPositions (audio : List ℚ) (sampleRate : ℕ) (cd ov : ℚ) : List (ℕ × ℕ) :=
  splitPositions audio.length (pyInt (cd * sampleRate)).toNat
    ((pyInt (cd * sampleRate) - pyInt (ov * sampleRate)).toNat) 0

/-- The chunk slices `audio_data[start_pos:end_pos]` (line 66). -/
def papChunks (audio : List ℚ) (sampleRate : ℕ) (cd ov : ℚ) : List (List ℚ) :=
  (papPositions audio sampleRate cd ov).map (fun p => pySliceTake audio p.1 p.2)

/-- The processed chunks in index order (lines 87-100): each worker result,
with the original chunk substituted when the worker raised. -/
def papProcessed (f : List ℚ → Option (List ℚ)) (audio : List ℚ)
    (sampleRate : ℕ) (cd ov : ℚ) : List (List ℚ) :=
  (papChunks audio sampleRate cd ov).map (fun c => (f c).getD c)

/-! ## The effect library (`audio_processing.py`)

Each `apply_*` method wraps its body in `try/except Exception: return
audio_data`.  The guards returning `audio` below are exactly the reachable
exception paths of the body (division by zero, invalid array construction,
`TypeError` on string-valued numeric parameters); everything else is the
straight-line body. -/

/-- The five EQ band names with their frequency ranges (lines 559-565). -/
def eqBands : List (String × ℚ × ℚ) :=
  [("low", 20, 250), ("low_mid", 250, 1000), ("mid", 500, 2000),
   ("high_mid", 1000, 5000), ("high", 5000, 20000)]

/-- One pass of the EQ band loop (lines 568-595): isolate the band with a
second-order Butterworth filter on the *current* signal and add back
`band * (gain - 1)`.  (numpy's elementwise `+` would raise on a length
mismatch; the modelled `lfilterButter2` instances are length-preserving,
matching `scipy.signal.lfilter`.) -/
def eqBandStep (ext : ExtLib) (sampleRate : ℕ) (cur : List ℚ)
    (band : String) (lo hi : ℚ) (value : ℚ) : List ℚ :=
  let gain := ext.exp10 (value / 20)
  let nyquist : ℚ := (sampleRate : ℚ) / 2
  let lowNorm := lo / nyquist
  let highNorm := hi / nyquist
  let spec : ℚ ⊕ ℚ ⊕ ℚ × ℚ :=
    if band = "low" then .inl highNorm
    else if band = "high" then .inr (.inl lowNorm)
    else .inr (.inr (lowNorm, highNorm))
  let bandAudio := ext.lfilterButter2 spec cur
  List.zipWith (fun p b => p + b * (gain - 1)) cur bandAudio

/-- `apply_eq` (lines 552-605).  Iterates the parameter dict in insertion
order; keys outside the five bands and zero gains are skipped.  A
string-valued gain on a band key raises `TypeError` at `10 ** (value/20)`
and the whole effect returns its input. -/
def applyEq (ext : ExtLib) (audio : List ℚ) (sampleRate : ℕ) (params : PDict) :
    List ℚ :=
  if params.any (fun kv =>
      (eqBands.any (fun b => b.1 = kv.1)) &&
      (match kv.2 with | .str _ => true | .num _ => false)) then
    audio
  else
    let processed := params.foldl (fun cur kv =>
      match eqBands.find? (fun b => b.1 = kv.1), kv.2 with
      | some (band, lo, hi), .num v =>
        if v ≠ 0 then eqBandStep ext sampleRate cur band lo hi v else cur
      | _, _ => cur) audio
    clamp99 processed

/-- The compression attack/release smoothing for samples after the first
(lines 630-653), carrying the previous gain-reduction value.  Note the
Python condition parses as
`if (target < prev if i > 0 else 1.0):` — for `i > 0` the attack branch is
taken exactly when `target < prev`. -/
def compSmooth (ext : ExtLib) (thrLin ratio attackS releaseS : ℚ) :
    ℚ → List ℚ → List ℚ
  | _, [] => []
  | prev, x :: xs =>
    let lvl := |x|
    let target := if lvl > thrLin then ext.rpow (lvl / thrLin) (1 / ratio - 1) else 1
    let g :=
      if target < prev then prev + (target - prev) / attackS
      else prev + (target - prev) / releaseS
    x * g :: compSmooth ext thrLin ratio attackS releaseS g xs

/-- `apply_compression` (lines 607-667).  `ratio = 0` raises
`ZeroDivisionError` at `1/ratio` (in the loop or in the makeup gain) and
`threshold_linear * (1 - 1/ratio) = 0` (i.e. `ratio = 1`) raises at the
makeup gain `1 / (10**(threshold/20) * (1 - 1/ratio))`; both return the
input via the `except` clause. -/
def applyCompression (ext : ExtLib) (audio : List ℚ) (sampleRate : ℕ)
    (params : PDict) : List ℚ :=
  match getNum params "threshold" (-20), getNum params "ratio" 4,
        getNum params "attack" 20, getNum params "release" 250 with
  | some threshold, some ratio, some attackMs, some releaseMs =>
    if ratio = 0 then audio
    else if ext.exp10 (threshold / 20) * (1 - 1 / ratio) = 0 then audio
    else
      let thrLin := ext.exp10 (threshold / 20)
      let attackS : ℚ := (max 1 (pyInt (attackMs * sampleRate / 1000)) : ℤ)
      let releaseS : ℚ := (max 1 (pyInt (releaseMs * sampleRate / 1000)) : ℤ)
      let output :=
        match audio with
        | [] => []
        | x :: xs =>
          let lvl := |x|
          let t0 := if lvl > thrLin then ext.rpow (lvl / thrLin) (1 / ratio - 1) else 1
          x * t0 :: compSmooth ext thrLin ratio attackS releaseS t0 xs
      let makeup := 1 / (thrLin * (1 - 1 / ratio))
      clamp99 (output.map (fun y => y * makeup))
  | _, _, _, _ => audio

/-- `np.convolve` / `scipy.signal.convolve` in `'full'` mode:
result length `|x| + |h| - 1`, entry `k` is `Σ_j x[j] * h[k-j]`. -/
def convolveFull (x h : List ℚ) : List ℚ :=
  (List.range (x.length + h.length - 1)).map (fun k =>
    (List.range (k + 1)).foldr (fun j acc =>
      acc + (x.getD j 0) * (h.getD (k - j) 0)) 0)

/-- `apply_reverb` (lines 669-700).  The impulse response is
`np.linspace(1,0,n) ** damping * np.random.randn(n) * 0.5` — randomness and
the fractional power make it an arbitrary list, supplied by
`ext.reverbIR`.  `room_size < 0` raises at `np.zeros(reverb_time)` and
`reverb_time = 0` raises at `signal.convolve(audio, [])`; both return the
input. -/
def applyReverb (ext : ExtLib) (audio : List ℚ) (sampleRate : ℕ)
    (params : PDict) : List ℚ :=
  match getNum params "room_size" (1/2), getNum params "damping" (1/2),
        getNum params "wet_level" (33/100), getNum params "dry_level" (7/10) with
  | some roomSize, some damping, some wetLevel, some dryLevel =>
    if pyInt (roomSize * sampleRate * 2) < 1 then audio
    else
      let ir := ext.reverbIR (pyInt (roomSize * sampleRate * 2)).toNat damping
      let wetSignal := (convolveFull audio ir).take audio.length
      let output := List.zipWith (fun d w => dryLevel * d + wetLevel * w)
        audio wetSignal
      clamp99 output
  | _, _, _, _ => audio

/-- `apply_noise_reduction` (lines 702-737): the body is a
`librosa.stft`/`istft` spectral gate, modelled as uninterpreted. -/
def applyNoiseReduction (ext : ExtLib) (audio : List ℚ) (_sampleRate : ℕ)
    (params : PDict) : List ℚ :=
  match getNum params "strength" (1/2), getNum params "sensitivity" (1/2) with
  | some strength, some sensitivity => ext.noiseReduction strength sensitivity audio
  | _, _ => audio

/-- One delay tap (line 767):
`delay_buffer[t:] += audio[:len(audio)-t] * gain` for a shift `t ≥ 0`. -/
def addTap (buf audio : List ℚ) (t : ℕ) (g : ℚ) : List ℚ :=
  List.zipWith (fun b a => b + a * g)
    buf (List.replicate t 0 ++ audio.take (audio.length - t))

/-- `apply_delay` (lines 739-780).  Up to 5 feedback taps at multiples of
the delay; a tap at or past the end of the buffer breaks the loop
(and since the shifts grow monotonically, the break is equivalent to
keeping exactly the taps that fit).  A negative delay `-len < d < 0` makes
the numpy slice assignment on line 767 raise (mismatched lengths) so the
effect returns its input; `d ≤ -len` makes every tap cover the whole
buffer. -/
def applyDelay (_ext : ExtLib) (audio : List ℚ) (sampleRate : ℕ)
    (params : PDict) : List ℚ :=
  match getNum params "time" (1/4), getNum params "feedback" (3/10),
        getNum params "mix" (3/10) with
  | some delayTime, some feedback, some mix =>
    if 0 ≤ pyInt (delayTime * sampleRate) then
      let d := (pyInt (delayTime * sampleRate)).toNat
      let delayBuffer := (List.range 5).foldl (fun buf i =>
        if d * (i + 1) < audio.length then
          addTap buf audio (d * (i + 1)) (feedback ^ i * mix)
        else buf) (List.replicate audio.length 0)
      clamp99 (List.zipWith (fun a b => (1 - mix) * a + b) audio delayBuffer)
    else if (-(pyInt (delayTime * sampleRate))).toNat < audio.length then
      audio
    else
      let delayBuffer := (List.range 5).foldl (fun buf i =>
        addTap buf audio 0 (feedback ^ i * mix)) (List.replicate audio.length 0)
      clamp99 (List.zipWith (fun a b => (1 - mix) * a + b) audio delayBuffer)
  | _, _, _ => audio

/-- `apply_pitch_shift` (lines 782-795): delegates to
`librosa.effects.pitch_shift`. -/
def applyPitchShift (ext : ExtLib) (audio : List ℚ) (sampleRate : ℕ)
    (params : PDict) : List ℚ :=
  match getNum params "semitones" 0 with
  | some semitones => ext.pitchShift sampleRate semitones audio
  | _ => audio

/-- `apply_time_stretch` (lines 797-817): delegates to
`librosa.effects.time_stretch` (which raises for `rate ≤ 0`, returning the
input via the `except`), then pads with zeros or truncates back to the
input length. -/
def applyTimeStretch (ext : ExtLib) (audio : List ℚ) (_sampleRate : ℕ)
    (params : PDict) : List ℚ :=
  match getNum params "rate" 1 with
  | some rate =>
    if rate ≤ 0 then audio
    else
      let out := ext.timeStretch rate audio
      if out.length < audio.length then
        out ++ List.replicate (audio.length - out.length) 0
      else out.take audio.length
  | _ => audio

/-- Audio as handed to `apply_stereo_width`: a 1-D mono array or a 2-D
array of channel rows (numpy guarantees equal row lengths). -/
inductive NpArr where
  | d1 (xs : List ℚ)
  | d2 (rows : List (List ℚ))
deriving DecidableEq, Repr

/-- `np.max(np.abs(·))` over a possibly 2-D array. -/
def peakNp : NpArr → ℚ
  | .d1 xs => peakAbs xs
  | .d2 rows => rows.foldr (fun r m => max (peakAbs r) m) 0

/-- `apply_stereo_width` (lines 819-856).  Mono input is returned as-is
(line 827) — with no clamp.  Exactly two channels get the mid/side scaling
and the 0.99 clamp; any other channel count is returned unchanged
(line 852). -/
def applyStereoWidth (audio : NpArr) (params : PDict) : NpArr :=
  match getNum params "width" 1 with
  | some width =>
    match audio with
    | .d1 xs => .d1 xs
    | .d2 rows =>
      match rows with
      | [l, r] =>
        let mid := List.zipWith (fun a b => (a + b) / 2) l r
        let side := List.zipWith (fun a b => (a - b) / 2 * width) l r
        let left := List.zipWith (fun m s => m + s) mid side
        let right := List.zipWith (fun m s => m - s) mid side
        let m := max (peakAbs left) (max (peakAbs right) 0)
        if m > 99/100 then
          .d2 [left.map (fun x => x / m * (99/100)),
               right.map (fun x => x / m * (99/100))]
        else .d2 [left, right]
      | _ => .d2 rows
  | _ => audio

/-- The limiter's per-sample gain for samples after the first
(lines 885-890): `min(1, prev + (1-prev)/release_samples)` then
`min(·, target)`.  When `release_samples = 0` the numpy float division
gives `inf` (or `nan` when `prev = 1`), and Python's
`min(1.0, inf) = min(1.0, nan) = 1.0`, so the candidate collapses to `1`. -/
def limGainStep (thrLin : ℚ) (releaseS : ℤ) (prev lvl : ℚ) : ℚ :=
  let target := if lvl > thrLin then thrLin / lvl else 1
  let cand := if releaseS = 0 then 1
    else min 1 (prev + (1 - prev) / (releaseS : ℚ))
  min cand target

/-- The gain-reduction sequence of `apply_limiter` over the post-gain
signal (lines 875-890); the first sample takes `target` directly. -/
def limGains (thrLin : ℚ) (releaseS : ℤ) : List ℚ → List ℚ
  | [] => []
  | y :: ys =>
    let t0 := if |y| > thrLin then thrLin / |y| else 1
    t0 :: limGainsAux thrLin releaseS t0 ys
where limGainsAux (thrLin : ℚ) (releaseS : ℤ) : ℚ → List ℚ → List ℚ
  | _, [] => []
  | prev, y :: ys =>
    let g := limGainStep thrLin releaseS prev |y|
    g :: limGainsAux thrLin releaseS g ys

/-- `apply_limiter` (lines 858-899): apply linear gain, then multiply each
sample by its gain-reduction value.  No final clamp and no
`max(1, release_samples)` guard (unlike compression). -/
def applyLimiter (ext : ExtLib) (audio : List ℚ) (sampleRate : ℕ)
    (params : PDict) : List ℚ :=
  match getNum params "gain" 0, getNum params "threshold" (-3/10),
        getNum params "release" 50 with
  | some gainDb, some thresholdDb, some releaseMs =>
    let gainLin := ext.exp10 (gainDb / 20)
    let thrLin := ext.exp10 (thresholdDb / 20)
    let releaseS := pyInt (releaseMs * sampleRate / 1000)
    let out := audio.map (fun x => x * gainLin)
    List.zipWith (fun y g => y * g) out (limGains thrLin releaseS out)
  | _, _, _ => audio

/-- `apply_distortion` (lines 901-932): normalize by the current peak
(plus `1e-10`), drive, `tanh` soft clip, dry/wet mix, rescale, clamp. -/
def applyDistortion (ext : ExtLib) (audio : List ℚ) (_sampleRate : ℕ)
    (params : PDict) : List ℚ :=
  match getNum params "drive" 2, getNum params "mix" (1/2) with
  | some drive, some mix =>
    let m := peakAbs audio + 1 / 10 ^ 10
    let normalized := audio.map (fun x => x / m)
    let distorted := normalized.map (fun x => ext.tanh (x * drive))
    let output := List.zipWith (fun n dd => ((1 - mix) * n + mix * dd) * m)
      normalized distorted
    clamp99 output
  | _, _ => audio

/-- `apply_filter` (lines 934-963): a single second-order Butterworth
low/high/band-pass; no clamp.  A non-string `"type"` value falls through to
the bandpass branch (Python `==` against a non-string is just `False`). -/
def applyFilter (ext : ExtLib) (audio : List ℚ) (sampleRate : ℕ)
    (params : PDict) : List ℚ :=
  match getNum params "cutoff_low" 500, getNum params "cutoff_high" 3000 with
  | some cutoffLow, some cutoffHigh =>
    let filterType := (params.find? (fun kv => kv.1 = "type")).map Prod.snd
    let nyquist : ℚ := (sampleRate : ℚ) / 2
    let lowNorm := cutoffLow / nyquist
    let highNorm := cutoffHigh / nyquist
    let spec : ℚ ⊕ ℚ ⊕ ℚ × ℚ :=
      if filterType = some (.str "lowpass") then .inl highNorm
      else if filterType = some (.str "highpass") then .inr (.inl lowNorm)
      else .inr (.inr (lowNorm, highNorm))
    ext.lfilterButter2 spec audio
  | _, _ => audio

/-- The gate attack/release smoothing (lines 988-1011), structured exactly
like compression but attenuating *below* the threshold with exponent
`ratio`.  (The Python corner `0.0 ** negative_ratio` raising
`ZeroDivisionError` is not modelled; no theorem exercises the gate.) -/
def gateSmooth (ext : ExtLib) (thrLin ratio attackS releaseS : ℚ) :
    ℚ → List ℚ → List ℚ
  | _, [] => []
  | prev, x :: xs =>
    let lvl := |x|
    let target := if lvl < thrLin then ext.rpow (lvl / thrLin) ratio else 1
    let g :=
      if target < prev then prev + (target - prev) / attackS
      else prev + (target - prev) / releaseS
    x * g :: gateSmooth ext thrLin ratio attackS releaseS g xs

/-- `apply_gate` (lines 965-1017): no makeup gain and no clamp. -/
def applyGate (ext : ExtLib) (audio : List ℚ) (sampleRate : ℕ)
    (params : PDict) : List ℚ :=
  match getNum params "threshold" (-40), getNum params "ratio" 10,
        getNum params "attack" 1, getNum params "release" 100 with
  | some threshold, some ratio, some attackMs, some releaseMs =>
    let thrLin := ext.exp10 (threshold / 20)
    let attackS : ℚ := (max 1 (pyInt (attackMs * sampleRate / 1000)) : ℤ)
    let releaseS : ℚ := (max 1 (pyInt (releaseMs * sampleRate / 1000)) : ℤ)
    match audio with
    | [] => []
    | x :: xs =>
      let lvl := |x|
      let t0 := if lvl < thrLin then ext.rpow (lvl / thrLin) ratio else 1
      x * t0 :: gateSmooth ext thrLin ratio attackS releaseS t0 xs
  | _, _, _, _ => audio

/-! ## `process_audio` (lines 431-474) -/

/-- An element of a processing chain: `{"type": ..., "parameters": {...}}`. -/
structure EffectSpec where
  type : String
  parameters : PDict
deriving DecidableEq, Repr

/-- The keys of the `supported_effects` dict (lines 25-38), in insertion
order. -/
def supportedEffects : List String :=
  ["eq", "compression", "reverb", "noise_reduction", "delay", "pitch_shift",
   "time_stretch", "stereo_width", "limiter", "distortion", "filter", "gate"]

/-- `self.supported_effects[effect_type](processed_audio, sample_rate,
parameters)` for a supported tag, on a 1-D (mono) buffer.
`stereo_width` on a 1-D array is the identity (line 827). -/
def applyEffectByName (ext : ExtLib) (name : String) (audio : List ℚ)
    (sampleRate : ℕ) (params : PDict) : List ℚ :=
  if name = "eq" then applyEq ext audio sampleRate params
  else if name = "compression" then applyCompression ext audio sampleRate params
  else if name = "reverb" then applyReverb ext audio sampleRate params
  else if name = "noise_reduction" then applyNoiseReduction ext audio sampleRate params
  else if name = "delay" then applyDelay ext audio sampleRate params
  else if name = "pitch_shift" then applyPitchShift ext audio sampleRate params
  else if name = "time_stretch" then applyTimeStretch ext audio sampleRate params
  else if name = "stereo_width" then
    match applyStereoWidth (.d1 audio) params with
    | .d1 xs => xs
    | .d2 _ => audio
  else if name = "limiter" then applyLimiter ext audio sampleRate params
  else if name = "distortion" then applyDistortion ext audio sampleRate params
  else if name = "filter" then applyFilter ext audio sampleRate params
  else if name = "gate" then applyGate ext audio sampleRate params
  else audio  -- unreachable: callers check membership first

/-- The effect-application loop of `process_audio` (lines 458-468).
`describe : String → PDict → Except String String` abstracts
`describe_effect` (lines 476-549), whose string formatting can raise
`KeyError` on missing parameter keys; a raised exception propagates to the
outer `except` of `process_audio`. -/
def processChainLoop (ext : ExtLib) (describe : String → PDict → Except String String)
    (sampleRate : ℕ) : List EffectSpec → List ℚ → Except String (List ℚ × List String)
  | [], cur => .ok (cur, [])
  | spec :: rest, cur =>
    if supportedEffects.contains spec.type then
      let cur1 := applyEffectByName ext spec.type cur sampleRate spec.parameters
      match describe spec.type spec.parameters with
      | .error e => .error e
      | .ok d =>
        match processChainLoop ext describe sampleRate rest cur1 with
        | .error e => .error e
        | .ok (out, steps) => .ok (out, d :: steps)
    else
      processChainLoop ext describe sampleRate rest cur

/-- `process_audio` on the explicit-effects path (`effects is not None`,
so `parse_instructions` is skipped; the `analyze_audio` result is unused on
this path and `analyze_audio` catches its own exceptions).  The outer
`except` returns the original audio plus a single error step
(lines 472-474). -/
def processAudio (ext : ExtLib) (describe : String → PDict → Except String String)
    (audio : List ℚ) (sampleRate : ℕ) (effects : List EffectSpec) :
    List ℚ × List String :=
  match processChainLoop ext describe sampleRate effects audio with
  | .ok r => r
  | .error e => (audio, ["Error: " ++ e])

/-! ## The instruction compiler `parse_instructions` (lines 122-429) -/

/-- `instructions.lower()`: ASCII-lowercase every character.
(Implemented over the character list so that it evaluates by reduction;
`String.toLower` itself is backed by compiled UTF-8 code.) -/
def pyLower (s : String) : String := String.mk (s.toList.map Char.toLower)

/-- Python `needle in hay` on strings. -/
def containsSub (hay needle : String) : Bool :=
  let h := hay.toList
  let n := needle.toList
  (List.range (h.length + 1)).any (fun i => n.isPrefixOf (h.drop i))

/-- `any(word in instructions for word in ws)`. -/
def anyKeyword (instr : String) (ws : List String) : Bool :=
  ws.any (fun w => containsSub instr w)

/-- The EQ presets dict (lines 41-48), in insertion order. -/
def eqPresets : List (String × PDict) :=
  [("warm", [("low", .num 3), ("low_mid", .num 1), ("high_mid", .num (-1)), ("high", .num (-2))]),
   ("bright", [("low", .num (-2)), ("low_mid", .num (-1)), ("high_mid", .num 2), ("high", .num 4)]),
   ("telephone", [("low", .num (-15)), ("low_mid", .num 5), ("high_mid", .num 5), ("high", .num (-15))]),
   ("radio", [("low", .num (-10)), ("low_mid", .num 2), ("high_mid", .num 2), ("high", .num (-8))]),
   ("scooped", [("low", .num 2), ("low_mid", .num (-4)), ("high_mid", .num (-4)), ("high", .num 2)]),
   ("vocal_presence", [("low", .num (-1)), ("low_mid", .num (-2)), ("high_mid", .num 4), ("high", .num 2)])]

/-- Leftmost match of the regex `(\d+)\s*LIT` (with `LIT` a literal whose
first character is neither a digit nor whitespace): because backtracking
into the digit or whitespace runs can never help, the match at a position
is the maximal digit run, then the maximal whitespace run, then the
literal.  Returns `int(group(1))`. -/
def findNumberBefore (lit : String) (cs : List Char) : Option ℕ :=
  match cs with
  | [] => none
  | _ :: rest =>
    (matchHere cs).orElse (fun _ => findNumberBefore lit rest)
where matchHere (cs : List Char) : Option ℕ :=
  let digits := cs.takeWhile (fun c => c.isDigit)
  if digits.isEmpty then none
  else
    let afterDigits := cs.drop digits.length
    let afterWs := afterDigits.dropWhile (fun c => c = ' ' || c = '\t' || c = '\n' || c = '\r')
    if lit.toList.isPrefixOf afterWs then
      some (String.toNat! (String.mk digits))
    else none

/-- Leftmost match of `(\d+)%\s*(faster|slower)` (line 313); returns
`(int(group(1)), group(2) = "faster")`. -/
def findPercentMatch (cs : List Char) : Option (ℕ × Bool) :=
  match cs with
  | [] => none
  | _ :: rest =>
    (matchHere cs).orElse (fun _ => findPercentMatch rest)
where matchHere (cs : List Char) : Option (ℕ × Bool) :=
  let digits := cs.takeWhile (fun c => c.isDigit)
  if digits.isEmpty then none
  else
    match cs.drop digits.length with
    | '%' :: afterPct =>
      let afterWs := afterPct.dropWhile (fun c => c = ' ' || c = '\t' || c = '\n' || c = '\r')
      if "faster".toList.isPrefixOf afterWs then
        some (String.toNat! (String.mk digits), true)
      else if "slower".toList.isPrefixOf afterWs then
        some (String.toNat! (String.mk digits), false)
      else none
    | _ => none

/-- The fields of the `analyze_audio` result that `parse_instructions`
reads on its fallback path (lines 409-427). -/
structure AudioAnalysis where
  isTooQuiet : Bool
  noiseFloor : ℚ
deriving DecidableEq, Repr

/-- `"echo" in str(processing_chain)`: whether the Python `repr` of the
chain built so far contains `"echo"` — only the type tags, parameter keys
and string values contribute text (numeric values print as digits). -/
def chainReprHasEcho (chain : List EffectSpec) : Bool :=
  chain.any (fun spec =>
    containsSub spec.type "echo" ||
    spec.parameters.any (fun kv =>
      containsSub kv.1 "echo" ||
      (match kv.2 with | .str s => containsSub s "echo" | .num _ => false)))

/-- `parse_instructions` (lines 122-429): scan the lower-cased instruction
text for topic keywords, building the chain in the fixed topic order
EQ, compression, reverb, noise reduction, delay, pitch, time-stretch,
stereo width, limiter, distortion, filter, with the analysis-based
fallback when nothing matched. -/
def parseInstructions (instructions : String) (audioAnalysis : Option AudioAnalysis) :
    List EffectSpec :=
  let instr := pyLower instructions
  let has := fun w => containsSub instr w
  -- EQ (lines 137-173)
  let chain1 : List EffectSpec :=
    if anyKeyword instr ["eq", "equalization", "equalizer", "bass", "treble",
        "mid", "frequency", "frequencies", "tone"] then
      let eqp : PDict :=
        match eqPresets.find? (fun p => containsSub instr p.1) with
        | some p => p.2
        | none => []
      let eqp :=
        if has "bass" then
          if has "more" || has "boost" || has "increase" then dictSet eqp "low" (.num 4)
          else if has "less" || has "cut" || has "reduce" then dictSet eqp "low" (.num (-4))
          else dictSet eqp "low" (.num 2)
        else eqp
      let eqp :=
        if has "mid" then
          if has "more" || has "boost" || has "increase" then dictSet eqp "mid" (.num 3)
          else if has "less" || has "cut" || has "reduce" then dictSet eqp "mid" (.num (-3))
          else eqp
        else eqp
      let eqp :=
        if has "treble" || has "high" then
          if has "more" || has "boost" || has "increase" then dictSet eqp "high" (.num 3)
          else if has "less" || has "cut" || has "reduce" then dictSet eqp "high" (.num (-3))
          else eqp
        else eqp
      if eqp.isEmpty then [] else [⟨"eq", eqp⟩]
    else []
  -- compression (lines 176-202)
  let chain2 : List EffectSpec := chain1 ++
    (if anyKeyword instr ["compress", "compression", "dynamics", "punchy", "tight"] then
      let p : PDict := [("threshold", .num (-20)), ("ratio", .num 3),
                        ("attack", .num 20), ("release", .num 250)]
      let p :=
        if has "heavy" || has "strong" then
          dictSet (dictSet p "ratio" (.num 6)) "threshold" (.num (-24))
        else if has "light" || has "gentle" || has "subtle" then
          dictSet (dictSet p "ratio" (.num 2)) "threshold" (.num (-18))
        else p
      let p :=
        if has "fast" then
          dictSet (dictSet p "attack" (.num 5)) "release" (.num 100)
        else if has "slow" then
          dictSet (dictSet p "attack" (.num 50)) "release" (.num 500)
        else p
      [⟨"compression", p⟩]
    else [])
  -- reverb (lines 205-231)
  let chain3 : List EffectSpec := chain2 ++
    (if anyKeyword instr ["reverb", "echo", "space", "room", "hall", "ambience"] then
      let p : PDict := [("room_size", .num (1/2)), ("damping", .num (1/2)),
                        ("wet_level", .num (33/100)), ("dry_level", .num (7/10))]
      let p :=
        if has "large" || has "hall" || has "cathedral" then
          dictSet (dictSet p "room_size" (.num (85/100))) "wet_level" (.num (4/10))
        else if has "small" || has "room" || has "booth" then
          dictSet (dictSet p "room_size" (.num (3/10))) "wet_level" (.num (25/100))
        else p
      let wet := match getNum p "wet_level" 0 with | some q => q | none => 0
      let dry := match getNum p "dry_level" 0 with | some q => q | none => 0
      let p :=
        if has "more" || has "wet" then
          dictSet (dictSet p "wet_level" (.num (wet + 15/100))) "dry_level" (.num (dry - 15/100))
        else if has "less" || has "subtle" || has "gentle" then
          dictSet (dictSet p "wet_level" (.num (wet - 1/10))) "dry_level" (.num (dry + 1/10))
        else p
      [⟨"reverb", p⟩]
    else [])
  -- noise reduction (lines 234-248)
  let chain4 : List EffectSpec := chain3 ++
    (if anyKeyword instr ["noise", "clean", "background", "hiss", "hum"] then
      let p : PDict := [("strength", .num (1/2)), ("sensitivity", .num (1/2))]
      let p :=
        if has "strong" || has "heavy" then dictSet p "strength" (.num (8/10))
        else if has "light" || has "gentle" then dictSet p "strength" (.num (3/10))
        else p
      [⟨"noise_reduction", p⟩]
    else [])
  -- delay (lines 251-273); the second conjunct is
  -- `"echo" not in str(processing_chain)` on the chain built so far
  let chain5 : List EffectSpec := chain4 ++
    (if anyKeyword instr ["delay", "echo", "repeat"] && !chainReprHasEcho chain4 then
      let p : PDict := [("time", .num (1/4)), ("feedback", .num (3/10)),
                        ("mix", .num (3/10))]
      let p :=
        if has "long" then
          dictSet (dictSet p "time" (.num (1/2))) "feedback" (.num (4/10))
        else if has "short" then
          dictSet (dictSet p "time" (.num (125/1000))) "feedback" (.num (2/10))
        else p
      let p :=
        if has "more" then dictSet p "mix" (.num (1/2))
        else if has "subtle" || has "less" then dictSet p "mix" (.num (2/10))
        else p
      [⟨"delay", p⟩]
    else [])
  -- pitch shift (lines 276-299)
  let chain6 : List EffectSpec := chain5 ++
    (if anyKeyword instr ["pitch", "higher", "lower", "deeper", "chipmunk"] then
      let semis : ℤ :=
        if has "higher" || has "up" then 2
        else if has "lower" || has "down" || has "deeper" then -2
        else if has "chipmunk" then 6
        else 0
      let semis : ℤ :=
        match findNumberBefore "semitone" instr.toList with
        | some n => if has "down" || has "lower" then -(n : ℤ) else (n : ℤ)
        | none => semis
      [⟨"pitch_shift", [("semitones", .num (semis : ℚ))]⟩]
    else [])
  -- time stretch (lines 302-324)
  let chain7 : List EffectSpec := chain6 ++
    (if anyKeyword instr ["faster", "slower", "speed", "tempo"] then
      let rate : ℚ :=
        if has "faster" || has "speed up" then 12/10
        else if has "slower" || has "slow down" then 8/10
        else 1
      let rate : ℚ :=
        match findPercentMatch instr.toList with
        | some (n, faster) =>
          if faster then 1 + (n : ℚ) / 100 else 1 - (n : ℚ) / 100
        | none => rate
      [⟨"time_stretch", [("rate", .num rate)]⟩]
    else [])
  -- stereo width (lines 327-342)
  let chain8 : List EffectSpec := chain7 ++
    (if anyKeyword instr ["stereo", "width", "wide", "narrow", "mono"] then
      let w : ℚ :=
        if has "wider" || has "more" then 15/10
        else if has "narrower" || has "less" then 7/10
        else if has "mono" then 0
        else 1
      [⟨"stereo_width", [("width", .num w)]⟩]
    else [])
  -- limiter (lines 345-360)
  let chain9 : List EffectSpec := chain8 ++
    (if anyKeyword instr ["louder", "maximize", "limit", "volume", "gain"] then
      let g : ℚ :=
        if has "louder" || has "maximize" then 6
        else if has "quieter" || has "softer" then -6
        else 0
      [⟨"limiter", [("gain", .num g), ("threshold", .num (-3/10)),
                    ("release", .num 50)]⟩]
    else [])
  -- distortion (lines 363-379)
  let chain10 : List EffectSpec := chain9 ++
    (if anyKeyword instr ["distort", "distortion", "saturate", "saturation",
        "warm", "analog"] then
      let p : PDict :=
        if has "heavy" || has "more" then [("drive", .num 5), ("mix", .num (7/10))]
        else if has "subtle" || has "light" || has "warm" then
          [("drive", .num (15/10)), ("mix", .num (3/10))]
        else [("drive", .num 2), ("mix", .num (1/2))]
      [⟨"distortion", p⟩]
    else [])
  -- filter (lines 382-406)
  let chain11 : List EffectSpec := chain10 ++
    (if anyKeyword instr ["filter", "lowpass", "highpass", "bandpass",
        "telephone", "radio"] then
      let p : PDict := [("type", .str "bandpass"), ("cutoff_low", .num 500),
                        ("cutoff_high", .num 3000), ("resonance", .num (7/10))]
      let p :=
        if has "lowpass" || has "low pass" then
          dictSet (dictSet p "type" (.str "lowpass")) "cutoff_high" (.num 1000)
        else if has "highpass" || has "high pass" then
          dictSet (dictSet p "type" (.str "highpass")) "cutoff_low" (.num 1000)
        else if has "telephone" then
          dictSet (dictSet p "cutoff_low" (.num 800)) "cutoff_high" (.num 3000)
        else if has "radio" then
          dictSet (dictSet p "cutoff_low" (.num 500)) "cutoff_high" (.num 5000)
        else p
      [⟨"filter", p⟩]
    else [])
  -- fallback (lines 409-427): `if not processing_chain and audio_analysis:`
  if chain11.isEmpty then
    match audioAnalysis with
    | none => chain11
    | some a =>
      let fb1 : List EffectSpec :=
        if a.isTooQuiet then
          [⟨"limiter", [("gain", .num 6), ("threshold", .num (-3/10)),
                        ("release", .num 50)]⟩]
        else []
      let fb2 : List EffectSpec :=
        if a.noiseFloor > 1/100 then
          [⟨"noise_reduction", [("strength", .num (4/10)),
                                ("sensitivity", .num (1/2))]⟩]
        else []
      chain11 ++ fb1 ++ fb2 ++ [⟨"eq", [("low", .num 1), ("high", .num 1)]⟩]
  else chain11

/-! ## The result cache (`cache_manager.py`)

The filesystem is modelled as in-memory maps from filename to payload (one
per cache subdirectory); filesystem errors are not modelled.  The key
derivation `_generate_cache_key` (an md5 of a canonical JSON dump,
lines 115-120) is outside the model: operations take the derived key
directly, since the claims below are about entries and counters, not about
hashing. -/

/-- `find` in an association list (Python dict lookup; dict keys are
unique, which the update function preserves). -/
def alistFind {α : Type} (l : List (String × α)) (k : String) : Option α :=
  (l.find? (fun kv => kv.1 = k)).map Prod.snd

/-- `d[k] = v` (insertion-ordered overwrite-or-append). -/
def alistSet {α : Type} (l : List (String × α)) (k : String) (v : α) :
    List (String × α) :=
  if l.any (fun kv => kv.1 = k) then
    l.map (fun kv => if kv.1 = k then (k, v) else kv)
  else
    l ++ [(k, v)]

/-- One index record: `{"filename": ..., "timestamp": time.time(), ...}`
(the request echo stored alongside is irrelevant to the claims). -/
structure CacheEntry where
  filename : String
  timestamp : ℚ
deriving DecidableEq, Repr

/-- The in-memory state of a `CacheManager`: the three-namespace index,
the three cache subdirectories, and the hit/miss counters. -/
structure CacheState where
  audioIndex : List (String × CacheEntry)
  analysisIndex : List (String × CacheEntry)
  waveformIndex : List (String × CacheEntry)
  audioFiles : List (String × (List ℚ × ℕ))
  analysisFiles : List (String × String)
  waveformFiles : List (String × String)
  hits : ℕ
  misses : ℕ
deriving DecidableEq, Repr

/-- A fresh `CacheManager` over an empty cache directory (`__init__`,
lines 23-50: empty index, zero counters; the startup sweep on an empty
index is a no-op). -/
def initCacheState : CacheState :=
  ⟨[], [], [], [], [], [], 0, 0⟩

/-- `get_processed_audio` (lines 122-163): hit iff the key is in the audio
index *and* the payload file exists — no timestamp check.  Returns the
payload and the updated counters. -/
def getProcessedAudio (key : String) (s : CacheState) :
    Option (List ℚ × ℕ) × CacheState :=
  match alistFind s.audioIndex key with
  | some e =>
    match alistFind s.audioFiles e.filename with
    | some p => (some p, { s with hits := s.hits + 1 })
    | none => (none, { s with misses := s.misses + 1 })
  | none => (none, { s with misses := s.misses + 1 })

/-- `cache_processed_audio` (lines 165-212): write the payload to
`{key}.wav`, record the index entry with the current time, counters
untouched. -/
def cacheProcessedAudio (key : String) (payload : List ℚ × ℕ) (now : ℚ)
    (s : CacheState) : CacheState :=
  let filename := key ++ ".wav"
  { s with
    audioFiles := alistSet s.audioFiles filename payload
    audioIndex := alistSet s.audioIndex key ⟨filename, now⟩ }

/-- `get_audio_analysis` (lines 214-246); the key is
`"analysis_" ++ file_id`. -/
def getAudioAnalysis (fileId : String) (s : CacheState) :
    Option String × CacheState :=
  let key := "analysis_" ++ fileId
  match alistFind s.analysisIndex key with
  | some e =>
    match alistFind s.analysisFiles e.filename with
    | some p => (some p, { s with hits := s.hits + 1 })
    | none => (none, { s with misses := s.misses + 1 })
  | none => (none, { s with misses := s.misses + 1 })

/-- `cache_audio_analysis` (lines 248-280). -/
def cacheAudioAnalysis (fileId : String) (payload : String) (now : ℚ)
    (s : CacheState) : CacheState :=
  let key := "analysis_" ++ fileId
  let filename := key ++ ".json"
  { s with
    analysisFiles := alistSet s.analysisFiles filename payload
    analysisIndex := alistSet s.analysisIndex key ⟨filename, now⟩ }

/-- `get_waveform_data` (lines 282-315); the key is
`"waveform_{file_id}_{points}"`. -/
def getWaveformData (fileId : String) (points : ℕ) (s : CacheState) :
    Option String × CacheState :=
  let key := "waveform_" ++ fileId ++ "_" ++ toString points
  match alistFind s.waveformIndex key with
  | some e =>
    match alistFind s.waveformFiles e.filename with
    | some p => (some p, { s with hits := s.hits + 1 })
    | none => (none, { s with misses := s.misses + 1 })
  | none => (none, { s with misses := s.misses + 1 })

/-- `cache_waveform_data` (lines 317-351). -/
def cacheWaveformData (fileId : String) (points : ℕ) (payload : String)
    (now : ℚ) (s : CacheState) : CacheState :=
  let key := "waveform_" ++ fileId ++ "_" ++ toString points
  let filename := key ++ ".json"
  { s with
    waveformFiles := alistSet s.waveformFiles filename payload
    waveformIndex := alistSet s.waveformIndex key ⟨filename, now⟩ }

/-- Sweep one namespace (`_clean_old_cache`, lines 80-110): drop every
index entry older than `maxAge` and delete its payload file. -/
def cleanNamespace {α : Type} (now maxAge : ℚ)
    (idx : List (String × CacheEntry)) (files : List (String × α)) :
    List (String × CacheEntry) × List (String × α) :=
  let expired := fun (kv : String × CacheEntry) => now - kv.2.timestamp > maxAge
  (idx.filter (fun kv => ¬ expired kv),
   files.filter (fun f => ¬ (idx.any (fun kv => expired kv ∧ kv.2.filename = f.1))))

/-- `_clean_old_cache` (lines 74-113) with the default
`max_age_days = 7`, i.e. `max_age = 7*24*60*60 = 604800` seconds. -/
def cleanOldCache (now : ℚ) (s : CacheState) : CacheState :=
  let maxAge : ℚ := 7 * 24 * 60 * 60
  let (ai, af) := cleanNamespace now maxAge s.audioIndex s.audioFiles
  let (ni, nf) := cleanNamespace now maxAge s.analysisIndex s.analysisFiles
  let (wi, wf) := cleanNamespace now maxAge s.waveformIndex s.waveformFiles
  { s with
    audioIndex := ai, audioFiles := af
    analysisIndex := ni, analysisFiles := nf
    waveformIndex := wi, waveformFiles := wf }

/-- `clear_cache` (lines 364-391): delete every payload file referenced by
the index and reset the index to empty.  The `hits`/`misses` counters are
*not* touched. -/
def clearCache (s : CacheState) : CacheState :=
  { s with
    audioFiles := s.audioFiles.filter
      (fun f => ¬ s.audioIndex.any (fun kv => kv.2.filename = f.1))
    analysisFiles := s.analysisFiles.filter
      (fun f => ¬ s.analysisIndex.any (fun kv => kv.2.filename = f.1))
    waveformFiles := s.waveformFiles.filter
      (fun f => ¬ s.waveformIndex.any (fun kv => kv.2.filename = f.1))
    audioIndex := []
    analysisIndex := []
    waveformIndex := [] }

/-- `get_cache_stats` (lines 353-362) — a pure read. -/
def getCacheStats (s : CacheState) : ℕ × ℕ × ℚ × ℕ × ℕ × ℕ :=
  (s.hits, s.misses,
   (if s.hits + s.misses > 0 then (s.hits : ℚ) / ((s.hits : ℚ) + (s.misses : ℚ)) else 0),
   s.audioIndex.length, s.analysisIndex.length, s.waveformIndex.length)

/-- The public operations of `CacheManager`, for stating properties of
operation sequences. -/
inductive CacheOp where
  | getAudio (key : String)
  | putAudio (key : String) (payload : List ℚ × ℕ) (now : ℚ)
  | getAnalysis (fileId : String)
  | putAnalysis (fileId : String) (payload : String) (now : ℚ)
  | getWaveform (fileId : String) (points : ℕ)
  | putWaveform (fileId : String) (points : ℕ) (payload : String) (now : ℚ)
  | clean (now : ℚ)
  | clear
  | stats

/-- The state transition of one cache operation. -/
def cacheStep (op : CacheOp) (s : CacheState) : CacheState :=
  match op with
  | .getAudio k => (getProcessedAudio k s).2
  | .putAudio k p now => cacheProcessedAudio k p now s
  | .getAnalysis fid => (getAudioAnalysis fid s).2
  | .putAnalysis fid p now => cacheAudioAnalysis fid p now s
  | .getWaveform fid pts => (getWaveformData fid pts s).2
  | .putWaveform fid pts p now => cacheWaveformData fid pts p now s
  | .clean now => cleanOldCache now s
  | .clear => clearCache s
  | .stats => s

/-- Run a sequence of cache operations. -/
def cacheRun (ops : List CacheOp) (s : CacheState) : CacheState :=
  ops.foldl (fun st op => cacheStep op st) s

/-- A concrete `ExtLib` instantiation for witnesses and counterexamples:
`exp10 := fun _ => 1` agrees with the real `10 ** x` at `x = 0`
(`10 ** 0 = 1`), which is the only point the concrete statements below
evaluate it at. -/
def extTriv : ExtLib where
  exp10 := fun _ => 1
  exp10_pos := fun _ => one_pos
  rpow := fun _ _ => 1
  tanh := fun _ => 0
  lfilterButter2 := fun _ x => x
  reverbIR := fun n _ => List.replicate n 0
  pitchShift := fun _ _ x => x
  timeStretch := fun _ x => x
  noiseReduction := fun _ _ x => x

/-! ## Basic lemmas -/

theorem peakAbs_nonneg (xs : List ℚ) : 0 ≤ peakAbs xs := by
  induction xs with
  | nil => simp [peakAbs]
  | cons x xs ih =>
    simp only [peakAbs, List.foldr_cons] at *
    exact le_trans ih (le_max_right _ _)

theorem abs_le_peakAbs {x : ℚ} {xs : List ℚ} (h : x ∈ xs) : |x| ≤ peakAbs xs := by
  induction xs with
  | nil => cases h
  | cons y ys ih =>
    simp only [peakAbs, List.foldr_cons]
    rcases List.mem_cons.mp h with rfl | h
    · exact le_max_left _ _
    · exact le_trans (ih h) (le_max_right _ _)

theorem peakAbs_le {xs : List ℚ} {c : ℚ} (hc : 0 ≤ c)
    (h : ∀ x ∈ xs, |x| ≤ c) : peakAbs xs ≤ c := by
  induction xs with
  | nil => simpa [peakAbs] using hc
  | cons y ys ih =>
    simp only [peakAbs, List.foldr_cons] at *
    exact max_le (h y (by simp)) (ih (fun x hx => h x (by simp [hx])))

theorem peakAbs_clamp99 (xs : List ℚ) : peakAbs (clamp99 xs) ≤ 99/100 := by
  unfold clamp99
  by_cases h : peakAbs xs > 99/100
  · simp only [h, if_true]
    apply peakAbs_le (by norm_num)
    intro y hy
    rcases List.mem_map.mp hy with ⟨x, hx, rfl⟩
    have hpos : (0:ℚ) < peakAbs xs := lt_trans (by norm_num) h
    have hb : |x| ≤ peakAbs xs := abs_le_peakAbs hx
    rw [abs_mul, abs_div, abs_of_pos hpos, abs_of_pos (by norm_num : (0:ℚ) < 99/100)]
    rw [div_mul_eq_mul_div, div_le_iff₀ hpos]
    calc |x| * (99/100) ≤ peakAbs xs * (99/100) := by
          exact mul_le_mul_of_nonneg_right hb (by norm_num)
      _ = 99/100 * peakAbs xs := by ring
  · simp only [h, if_false]
    exact le_of_not_lt h

theorem clamp99_eq_self {xs : List ℚ} (h : peakAbs xs ≤ 99/100) :
    clamp99 xs = xs := by
  unfold clamp99
  rw [if_neg (not_lt.mpr h)]

theorem linspace_length (a b : ℚ) (n : ℕ) : (linspace a b n).length = n := by
  unfold linspace
  by_cases h : n ≤ 1
  · rw [if_pos h, List.length_replicate]
  · rw [if_neg h, List.length_map, List.length_range]

theorem assignSlice_length {out vals r : List ℚ} {a b : ℕ}
    (h : assignSlice out a b vals = some r) : r.length = out.length := by
  unfold assignSlice at h
  set lo := min a out.length with hlo
  set hi := max lo (min b out.length) with hhi
  by_cases hc : vals.length = hi - lo
  · rw [if_pos hc] at h
    cases h
    have h1 : lo ≤ out.length := min_le_right _ _
    have h2 : hi ≤ out.length := by
      apply max_le h1 (min_le_right _ _)
    simp [List.length_append, List.length_take, List.length_drop, hc]
    omega
  · rw [if_neg hc] at h
    cases h

theorem assignSlice_some {out vals : List ℚ} {a b : ℕ}
    (hab : a ≤ b) (hb : b ≤ out.length) (hv : vals.length = b - a) :
    ∃ r, assignSlice out a b vals = some r ∧ r.length = out.length := by
  have hlo : min a out.length = a := min_eq_left (le_trans hab hb)
  have hmb : min b out.length = b := min_eq_left hb
  have hhi : max (min a out.length) (min b out.length) = b := by
    rw [hlo, hmb]; exact max_eq_right hab
  simp only [assignSlice, hlo, hmb, hhi]
  rw [if_pos (by omega)]
  refine ⟨_, rfl, ?_⟩
  simp [List.length_append, List.length_take, List.length_drop]
  omega

theorem pySliceTake_length {xs : List ℚ} {a b : ℕ} (hb : b ≤ xs.length) :
    (pySliceTake xs a b).length = b - a := by
  unfold pySliceTake
  simp [List.length_take, List.length_drop]
  omega

/-! ## Lemmas about the chunk engine -/

theorem mergeLoop_ok {n : ℕ} : ∀ {cs : List (List ℚ)} {ps : List (ℕ × ℕ)},
    List.Forall₂ (ChunkFits n) cs ps → ∀ (prevEnd : ℕ) {out : List ℚ},
    out.length = n → ∃ r, mergeLoop cs ps prevEnd out = some r ∧ r.length = n := by
  intro cs ps h
  induction h with
  | nil =>
    intro prevEnd out hout
    exact ⟨out, rfl, hout⟩
  | @cons c p cs ps hcp _ ih =>
    intro prevEnd out hout
    obtain ⟨s, e⟩ := p
    obtain ⟨hclen, hse, hen⟩ := hcp
    simp only at hclen hse hen
    by_cases hL : 0 < min prevEnd e - s
    · -- crossfade branch
      have hoen : min prevEnd e ≤ n := le_trans (min_le_right _ _) hen
      have hsoe : s ≤ min prevEnd e := by omega
      have hseg : (pySliceTake out s (min prevEnd e)).length = min prevEnd e - s := by
        rw [pySliceTake_length]; omega
      have hcseg : (c.take (min prevEnd e - s)).length = min prevEnd e - s := by
        rw [List.length_take]
        have : min prevEnd e - s ≤ c.length := by
          rw [hclen]; omega
        omega
      have hblen :
          (List.zipWith (fun p q => p + q)
            (List.zipWith (fun x w => x * w) (pySliceTake out s (min prevEnd e))
              (linspace 1 0 (min prevEnd e - s)))
            (List.zipWith (fun x w => x * w) (c.take (min prevEnd e - s))
              (linspace 0 1 (min prevEnd e - s)))).length = min prevEnd e - s := by
        simp [List.length_zipWith, hseg, hcseg, linspace_length]
      obtain ⟨out1, hout1, hlen1⟩ := @assignSlice_some out
        (List.zipWith (fun p q => p + q)
          (List.zipWith (fun x w => x * w) (pySliceTake out s (min prevEnd e))
            (linspace 1 0 (min prevEnd e - s)))
          (List.zipWith (fun x w => x * w) (c.take (min prevEnd e - s))
            (linspace 0 1 (min prevEnd e - s))))
        s (min prevEnd e) hsoe (by omega) (by rw [hblen])
      obtain ⟨out2, hout2, hlen2⟩ := @assignSlice_some out1
        (c.drop (min prevEnd e - s)) (min prevEnd e) e (min_le_right prevEnd e)
        (by omega) (by rw [List.length_drop, hclen]; omega)
      obtain ⟨r, hr, hrlen⟩ := ih e (hlen2.trans hlen1 |>.trans hout)
      refine ⟨r, ?_, hrlen⟩
      simp only [mergeLoop, if_pos hL]
      rw [if_pos (⟨hseg, hcseg⟩ :
        (pySliceTake out s (min prevEnd e)).length = min prevEnd e - s ∧
        (List.take (min prevEnd e - s) c).length = min prevEnd e - s)]
      simp only [hout1, hout2]
      exact hr
    · -- no-overlap branch
      obtain ⟨out1, hout1, hlen1⟩ := @assignSlice_some out c s e hse (by omega)
        (by rw [hclen])
      obtain ⟨r, hr, hrlen⟩ := ih e (hlen1.trans hout)
      refine ⟨r, ?_, hrlen⟩
      simp only [mergeLoop, if_neg hL]
      simp only [hout1]
      exact hr

theorem mergeCrossfade_ok {n : ℕ} {chunks : List (List ℚ)} {ps : List (ℕ × ℕ)}
    (h : List.Forall₂ (ChunkFits n) chunks ps) (hne : ps ≠ [])
    (hlast : (ps.getLast hne).2 = n) :
    ∃ r, mergeChunksWithCrossfade chunks ps = some r ∧ r.length = n := by
  cases h with
  | nil => exact absurd rfl hne
  | @cons c p cs ps' hcp htail =>
    obtain ⟨s0, e0⟩ := p
    obtain ⟨hclen, hse, hen⟩ := hcp
    simp only at hclen hse hen
    have houtLen : (((s0, e0) :: ps').getLast (by simp)).2 = n := hlast
    obtain ⟨out1, hout1, hlen1⟩ := @assignSlice_some
      (List.replicate (((s0, e0) :: ps').getLast (by simp)).2 (0:ℚ)) c s0 e0 hse
      (by rw [List.length_replicate, houtLen]; exact hen) (by rw [hclen])
    obtain ⟨r, hr, hrlen⟩ := mergeLoop_ok htail e0
      (hlen1.trans (by rw [List.length_replicate, houtLen]))
    refine ⟨r, ?_, hrlen⟩
    simp only [mergeChunksWithCrossfade, hout1]
    exact hr

theorem pyInt_nonneg {q : ℚ} (h : 0 ≤ q) : 0 ≤ pyInt q := by
  unfold pyInt
  exact Int.tdiv_nonneg (Rat.num_nonneg.mpr h) (Int.natCast_nonneg _)

theorem splitPositionsAux_mem {n cs step : ℕ} :
    ∀ (fuel start : ℕ),
    ∀ p ∈ splitPositionsAux cs step fuel n start, p.1 < n ∧ p.2 = min (p.1 + cs) n := by
  intro fuel
  induction fuel with
  | zero =>
    intro start p hp
    cases hp
  | succ fuel ih =>
    intro start p hp
    rw [splitPositionsAux] at hp
    by_cases h : start < n ∧ 0 < step
    · rw [if_pos h] at hp
      by_cases he : min (start + cs) n = n
      · simp only [he, if_pos rfl] at hp
        rcases List.mem_singleton.mp hp with rfl
        exact ⟨h.1, by simp [he]⟩
      · rw [if_neg he] at hp
        rcases List.mem_cons.mp hp with rfl | hp
        · exact ⟨h.1, rfl⟩
        · exact ih (start + step) p hp
    · rw [if_neg h] at hp
      cases hp

theorem splitPositions_mem {n cs step : ℕ} (start : ℕ) :
    ∀ p ∈ splitPositions n cs step start, p.1 < n ∧ p.2 = min (p.1 + cs) n :=
  splitPositionsAux_mem (n - start) start

theorem splitPositionsAux_last {n cs step : ℕ} (hstep : 0 < step) (hsc : step ≤ cs) :
    ∀ (fuel start : ℕ), n - start ≤ fuel → start < n →
    ∃ s', (splitPositionsAux cs step fuel n start).getLast? = some (s', n) := by
  intro fuel
  induction fuel with
  | zero => intro start hf hs; omega
  | succ fuel ih =>
    intro start hf hs
    rw [splitPositionsAux, if_pos ⟨hs, hstep⟩]
    by_cases he : min (start + cs) n = n
    · rw [if_pos he]
      exact ⟨start, by simp [he]⟩
    · rw [if_neg he]
      have hlt : start + cs < n := by
        rcases Nat.lt_or_ge (start + cs) n with h | h
        · exact h
        · exact absurd (min_eq_right h) he
      obtain ⟨s', hs'⟩ := ih (start + step) (by omega) (by omega)
      refine ⟨s', ?_⟩
      cases hrest : splitPositionsAux cs step fuel n (start + step) with
      | nil => rw [hrest] at hs'; cases hs'
      | cons q qs =>
        rw [hrest] at hs'
        rw [List.getLast?_cons_cons]
        exact hs'

theorem splitPositions_last {n cs step : ℕ} (hstep : 0 < step) (hsc : step ≤ cs)
    (start : ℕ) (hs : start < n) :
    ∃ s', (splitPositions n cs step start).getLast? = some (s', n) :=
  splitPositionsAux_last hstep hsc (n - start) start le_rfl hs

theorem processAudioParallel_chunked {f : List ℚ → Option (List ℚ)}
    {audio : List ℚ} {sampleRate : ℕ} {cd ov : ℚ}
    (h1 : ¬ (audio.length : ℤ) ≤ pyInt (cd * sampleRate))
    (h2 : ¬ pyInt (cd * sampleRate) - pyInt (ov * sampleRate) ≤ 0) :
    processAudioParallel f audio sampleRate cd ov =
      mergeChunksWithCrossfade (papProcessed f audio sampleRate cd ov)
        (papPositions audio sampleRate cd ov) := by
  simp only [processAudioParallel, if_neg h1, if_neg h2, papProcessed, papChunks,
    papPositions, List.map_map]

/-- The central length-preservation fact about the chunked path: if the
buffer is strictly longer than one chunk, `0 ≤ overlap_size < chunk_size`,
and every successful worker result has its chunk's length, the merged
output exists and has exactly the input length. -/
theorem papLengthPreserved {f : List ℚ → Option (List ℚ)} {audio : List ℚ}
    {sampleRate : ℕ} {cd ov : ℚ}
    (hlong : pyInt (cd * sampleRate) < (audio.length : ℤ))
    (hov : 0 ≤ pyInt (ov * sampleRate))
    (hlt : pyInt (ov * sampleRate) < pyInt (cd * sampleRate))
    (hlen : ∀ c r, f c = some r → r.length = c.length) :
    ∃ out, processAudioParallel f audio sampleRate cd ov = some out ∧
      out.length = audio.length := by
  set n := audio.length with hn
  set csZ := pyInt (cd * sampleRate) with hcsZ
  set ovZ := pyInt (ov * sampleRate) with hovZ
  have hcs0 : 0 < csZ := lt_of_le_of_lt hov hlt
  have hncs : csZ.toNat < n := by omega
  have hstep0 : 0 < (csZ - ovZ).toNat := by omega
  have hstep_le : (csZ - ovZ).toNat ≤ csZ.toNat := by omega
  have hmem := fun p hp =>
    @splitPositions_mem n csZ.toNat ((csZ - ovZ).toNat) 0 p hp
  have hfits : List.Forall₂ (ChunkFits n)
      (papProcessed f audio sampleRate cd ov) (papPositions audio sampleRate cd ov) := by
    unfold papProcessed papChunks papPositions
    rw [List.map_map, List.forall₂_map_left_iff, List.forall₂_same]
    intro p hp
    obtain ⟨hp1, hp2⟩ := hmem p hp
    have hpe : p.2 ≤ n := by rw [hp2]; exact min_le_right _ _
    have hslice : (pySliceTake audio p.1 p.2).length = p.2 - p.1 :=
      pySliceTake_length hpe
    have hproc : ((f (pySliceTake audio p.1 p.2)).getD
        (pySliceTake audio p.1 p.2)).length = p.2 - p.1 := by
      cases hf : f (pySliceTake audio p.1 p.2) with
      | none => simpa using hslice
      | some r => simpa [hlen _ _ hf] using hslice
    refine ⟨hproc, ?_, hpe⟩
    rw [hp2]
    omega
  obtain ⟨s', hlast'⟩ :=
    @splitPositions_last n csZ.toNat ((csZ - ovZ).toNat) hstep0 hstep_le 0 (by omega)
  have hne : papPositions audio sampleRate cd ov ≠ [] := by
    unfold papPositions
    intro hcon
    rw [hcon] at hlast'
    simp at hlast'
  have hlast : ((papPositions audio sampleRate cd ov).getLast hne).2 = n := by
    have h2 : (papPositions audio sampleRate cd ov).getLast? =
        some ((papPositions audio sampleRate cd ov).getLast hne) :=
      List.getLast?_eq_getLast _ hne
    have h3 : (papPositions audio sampleRate cd ov).getLast? = some (s', n) := by
      unfold papPositions
      exact hlast'
    rw [h2] at h3
    rw [Option.some_inj.mp h3]
  obtain ⟨r, hr, hrlen⟩ := mergeCrossfade_ok hfits hne hlast
  refine ⟨r, ?_, hrlen⟩
  rw [processAudioParallel_chunked (by omega) (by omega)]
  exact hr

/-! ## Claims C1, C3, C5 -/

/-- Helper: the early-exit `none` of `process_audio_parallel` when the
`range` step `chunk_size - overlap_size` is nonpositive. -/
theorem processAudioParallel_step_nonpos {f : List ℚ → Option (List ℚ)}
    {audio : List ℚ} {sampleRate : ℕ} {cd ov : ℚ}
    (h1 : ¬ (audio.length : ℤ) ≤ pyInt (cd * sampleRate))
    (h2 : pyInt (cd * sampleRate) - pyInt (ov * sampleRate) ≤ 0) :
    processAudioParallel f audio sampleRate cd ov = none := by
  simp only [processAudioParallel, if_neg h1, if_pos h2]

/-- C1 (amended): for every audio buffer strictly longer than one chunk,
chunked processing with a length-preserving per-chunk processor, overlap
`≥ 0` **and overlap_size < chunk_size** returns a merged buffer whose
length exactly equals the input length.  (As literally stated — for
*every* overlap ≥ 0 — the claim is false: `overlap_size ≥ chunk_size`
makes Python's `range` step nonpositive, raising instead of returning a
buffer; see the counterexample.) -/
theorem c1_merged_length_equals_input
    (f : List ℚ → Option (List ℚ)) (audio : List ℚ) (sampleRate : ℕ) (cd ov : ℚ)
    (hlong : pyInt (cd * sampleRate) < (audio.length : ℤ))
    (hov : 0 ≤ ov)
    (hamend : pyInt (ov * sampleRate) < pyInt (cd * sampleRate))
    (hlen : ∀ c r, f c = some r → r.length = c.length) :
    ∃ out, processAudioParallel f audio sampleRate cd ov = some out ∧
      out.length = audio.length :=
  papLengthPreserved hlong
    (pyInt_nonneg (mul_nonneg hov (Nat.cast_nonneg _))) hamend hlen

theorem c1_merged_length_witness :
    (pyInt ((2:ℚ) * ((1:ℕ) : ℚ)) < (([(0:ℚ), 0, 0].length : ℤ))) ∧
    (0 : ℚ) ≤ 1 ∧
    (pyInt ((1:ℚ) * ((1:ℕ) : ℚ)) < pyInt ((2:ℚ) * ((1:ℕ) : ℚ))) ∧
    ∃ out, processAudioParallel (fun c => some c) [0, 0, 0] 1 2 1 = some out ∧
      out.length = [(0:ℚ), 0, 0].length :=
  ⟨by norm_num [pyInt], by norm_num,
   by norm_num [pyInt],
   c1_merged_length_equals_input (fun c => some c) [0, 0, 0] 1 2 1
     (by norm_num [pyInt]) (by norm_num) (by norm_num [pyInt])
     (fun c r h => by cases h; rfl)⟩

/-- C1 counterexample: a 3-sample buffer (strictly longer than the 2-sample
chunk), overlap 2 ≥ 0, identity per-chunk processing — the claim promises
a full-length merged buffer, but `chunk_size - overlap_size = 0` makes
`range(0, 3, 0)` raise `ValueError`, so the call raises instead of
returning a buffer (`none`). -/
theorem c1_overlap_ge_chunk_counterexample :
    (pyInt ((2:ℚ) * ((1:ℕ) : ℚ)) < (([(0:ℚ), 0, 0].length : ℤ))) ∧
    (0 : ℚ) ≤ 2 ∧
    processAudioParallel (fun c => some c) [0, 0, 0] 1 2 2 = none := by
  refine ⟨by norm_num [pyInt], by norm_num, ?_⟩
  apply processAudioParallel_step_nonpos
  · norm_num [pyInt]
  · norm_num [pyInt]

/-- C3: if the worker for one chunk raises, the merge receives that chunk's
original unprocessed slice in its position, every successfully processed
chunk contributes its processed result, and the call still returns a
full-length buffer instead of propagating the failure. -/
theorem c3_worker_failure_substitutes_original
    (f : List ℚ → Option (List ℚ)) (audio : List ℚ) (sampleRate : ℕ) (cd ov : ℚ)
    (j : ℕ)
    (hlong : pyInt (cd * sampleRate) < (audio.length : ℤ))
    (hov : 0 ≤ ov)
    (hstep : pyInt (ov * sampleRate) < pyInt (cd * sampleRate))
    (hlen : ∀ c r, f c = some r → r.length = c.length)
    (hfail : ∀ c, (papChunks audio sampleRate cd ov)[j]? = some c → f c = none) :
    (papProcessed f audio sampleRate cd ov)[j]? =
      (papChunks audio sampleRate cd ov)[j]? ∧
    (∀ (i : ℕ) (c r : List ℚ), (papChunks audio sampleRate cd ov)[i]? = some c → f c = some r →
      (papProcessed f audio sampleRate cd ov)[i]? = some r) ∧
    processAudioParallel f audio sampleRate cd ov =
      mergeChunksWithCrossfade (papProcessed f audio sampleRate cd ov)
        (papPositions audio sampleRate cd ov) ∧
    ∃ out, processAudioParallel f audio sampleRate cd ov = some out ∧
      out.length = audio.length := by
  have hovZ : 0 ≤ pyInt (ov * sampleRate) :=
    pyInt_nonneg (mul_nonneg hov (Nat.cast_nonneg _))
  refine ⟨?_, ?_, ?_, ?_⟩
  · unfold papProcessed
    rw [List.getElem?_map]
    cases hc : (papChunks audio sampleRate cd ov)[j]? with
    | none => rfl
    | some c => simp [hfail c hc]
  · intro i c r hc hf
    unfold papProcessed
    rw [List.getElem?_map, hc]
    simp [hf]
  · exact processAudioParallel_chunked (by omega) (by omega)
  · exact papLengthPreserved hlong hovZ hstep hlen

theorem c3_worker_failure_witness :
    (pyInt ((2:ℚ) * ((1:ℕ) : ℚ)) < (([(1:ℚ), 2, 3].length : ℤ))) ∧
    (papChunks [(1:ℚ), 2, 3] 1 2 1)[0]? = some [(1:ℚ), 2] ∧
    ((fun c => if c = [(1:ℚ), 2] then none else some c) [(1:ℚ), 2]
      = (none : Option (List ℚ))) ∧
    ((papProcessed (fun c => if c = [(1:ℚ), 2] then none else some c)
        [(1:ℚ), 2, 3] 1 2 1)[0]? =
      (papChunks [(1:ℚ), 2, 3] 1 2 1)[0]? ∧
     ∃ out, processAudioParallel
        (fun c => if c = [(1:ℚ), 2] then none else some c) [(1:ℚ), 2, 3] 1 2 1 =
          some out ∧ out.length = 3) := by
  have hA : pyInt ((2:ℚ) * ((1:ℕ) : ℚ)) = 2 := by norm_num [pyInt]
  have hB : pyInt ((1:ℚ) * ((1:ℕ) : ℚ)) = 1 := by norm_num [pyInt]
  have hpos : papPositions [(1:ℚ), 2, 3] 1 2 1 = [(0, 2), (1, 3)] := by
    unfold papPositions
    rw [hA, hB]
    decide
  have hch : papChunks [(1:ℚ), 2, 3] 1 2 1 = [[1, 2], [2, 3]] := by
    unfold papChunks
    rw [hpos]
    rfl
  have hch0 : (papChunks [(1:ℚ), 2, 3] 1 2 1)[0]? = some [(1:ℚ), 2] := by
    rw [hch]
    rfl
  have hfnone : (fun c => if c = [(1:ℚ), 2] then none else some c) [(1:ℚ), 2]
      = (none : Option (List ℚ)) := by
    show (if [(1:ℚ), 2] = [(1:ℚ), 2] then none else some [(1:ℚ), 2]) = none
    rw [if_pos rfl]
  have h := c3_worker_failure_substitutes_original
    (fun c => if c = [(1:ℚ), 2] then none else some c) [(1:ℚ), 2, 3] 1 2 1 0
    (by norm_num [pyInt]) (by norm_num) (by norm_num [pyInt])
    (fun c r hf => by
      by_cases hc : c = [(1:ℚ), 2]
      · rw [hc, hfnone] at hf
        cases hf
      · simp only [if_neg hc] at hf
        cases hf
        rfl)
    (fun c hc => by
      rw [hch0] at hc
      rw [← Option.some_inj.mp hc]
      exact hfnone)
  exact ⟨by norm_num [pyInt], hch0, hfnone, h.1, h.2.2.2⟩

/-- C5: a 45-second mono buffer at 44.1 kHz with `chunk_seconds = 10`,
`overlap_seconds = 0.5` is split into exactly 5 chunks at the claimed
positions (start `i * (441000 - 22050)`, end `min(start + 441000,
45*44100)`), consecutive chunks overlap by 22050 samples, and the merged
output of any length-preserving per-chunk processor has exactly
`45 * 44100` samples. -/
theorem c5_concrete_chunking (audio : List ℚ) (h45 : audio.length = 45 * 44100) :
    papPositions audio 44100 10 (1/2) =
      [(0, 441000), (418950, 859950), (837900, 1278900),
       (1256850, 1697850), (1675800, 1984500)] ∧
    (papPositions audio 44100 10 (1/2)).length = 5 ∧
    List.Chain' (fun p q => p.2 - q.1 = 22050) (papPositions audio 44100 10 (1/2)) ∧
    (∀ f : List ℚ → Option (List ℚ), (∀ c r, f c = some r → r.length = c.length) →
      ∃ out, processAudioParallel f audio 44100 10 (1/2) = some out ∧
        out.length = 45 * 44100) := by
  have hcs : pyInt ((10:ℚ) * ((44100:ℕ) : ℚ)) = 441000 := by norm_num [pyInt]
  have hovq : pyInt ((1/2 : ℚ) * ((44100:ℕ) : ℚ)) = 22050 := by norm_num [pyInt]
  have hpos : papPositions audio 44100 10 (1/2) =
      [(0, 441000), (418950, 859950), (837900, 1278900),
       (1256850, 1697850), (1675800, 1984500)] := by
    unfold papPositions
    rw [h45, hcs, hovq]
    decide
  refine ⟨hpos, by rw [hpos]; rfl, by rw [hpos]; norm_num [List.chain'_cons], ?_⟩
  intro f hlen
  have h := @papLengthPreserved f audio 44100 10 (1/2)
    (by rw [h45]; norm_num [pyInt]) (by norm_num [pyInt]) (by norm_num [pyInt]) hlen
  rw [h45] at h
  exact h

theorem c5_concrete_chunking_witness :
    (List.replicate (45 * 44100) (0:ℚ)).length = 45 * 44100 ∧
    papPositions (List.replicate (45 * 44100) (0:ℚ)) 44100 10 (1/2) =
      [(0, 441000), (418950, 859950), (837900, 1278900),
       (1256850, 1697850), (1675800, 1984500)] ∧
    ∃ out, processAudioParallel (fun c => some c)
        (List.replicate (45 * 44100) (0:ℚ)) 44100 10 (1/2) = some out ∧
      out.length = 45 * 44100 := by
  have hl : (List.replicate (45 * 44100) (0:ℚ)).length = 45 * 44100 :=
    List.length_replicate _ _
  have h := c5_concrete_chunking (List.replicate (45 * 44100) (0:ℚ)) hl
  exact ⟨hl, h.1, h.2.2.2 (fun c => some c) (fun c r hf => by cases hf; rfl)⟩

/-! ## Claim C2: peak safety -/

theorem applyEq_input_or_clamped (ext : ExtLib) (audio : List ℚ)
    (sampleRate : ℕ) (ps : PDict) :
    applyEq ext audio sampleRate ps = audio ∨
      peakAbs (applyEq ext audio sampleRate ps) ≤ 99/100 := by
  unfold applyEq
  split
  · exact Or.inl rfl
  · exact Or.inr (peakAbs_clamp99 _)

theorem applyCompression_input_or_clamped (ext : ExtLib) (audio : List ℚ)
    (sampleRate : ℕ) (ps : PDict) :
    applyCompression ext audio sampleRate ps = audio ∨
      peakAbs (applyCompression ext audio sampleRate ps) ≤ 99/100 := by
  unfold applyCompression
  split
  · split_ifs
    · exact Or.inl rfl
    · exact Or.inl rfl
    · exact Or.inr (peakAbs_clamp99 _)
  · exact Or.inl rfl

theorem applyReverb_input_or_clamped (ext : ExtLib) (audio : List ℚ)
    (sampleRate : ℕ) (ps : PDict) :
    applyReverb ext audio sampleRate ps = audio ∨
      peakAbs (applyReverb ext audio sampleRate ps) ≤ 99/100 := by
  unfold applyReverb
  split
  · split_ifs
    · exact Or.inl rfl
    · exact Or.inr (peakAbs_clamp99 _)
  · exact Or.inl rfl

theorem applyDelay_input_or_clamped (ext : ExtLib) (audio : List ℚ)
    (sampleRate : ℕ) (ps : PDict) :
    applyDelay ext audio sampleRate ps = audio ∨
      peakAbs (applyDelay ext audio sampleRate ps) ≤ 99/100 := by
  unfold applyDelay
  split
  · split_ifs
    · exact Or.inr (peakAbs_clamp99 _)
    · exact Or.inl rfl
    · exact Or.inr (peakAbs_clamp99 _)
  · exact Or.inl rfl

theorem applyDistortion_input_or_clamped (ext : ExtLib) (audio : List ℚ)
    (sampleRate : ℕ) (ps : PDict) :
    applyDistortion ext audio sampleRate ps = audio ∨
      peakAbs (applyDistortion ext audio sampleRate ps) ≤ 99/100 := by
  unfold applyDistortion
  split
  · exact Or.inr (peakAbs_clamp99 _)
  · exact Or.inl rfl

theorem applyStereoWidth_input_or_clamped (arr : NpArr) (ps : PDict) :
    applyStereoWidth arr ps = arr ∨ peakNp (applyStereoWidth arr ps) ≤ 99/100 := by
  unfold applyStereoWidth
  split
  · rename_i width _
    match arr with
    | .d1 xs => exact Or.inl rfl
    | .d2 rows =>
      match rows with
      | [l, r] =>
        simp only
        split
        · rename_i hm
          right
          have hpos : (0:ℚ) < max (peakAbs (List.zipWith (fun m s => m + s)
              (List.zipWith (fun a b => (a + b) / 2) l r)
              (List.zipWith (fun a b => (a - b) / 2 * width) l r)))
              (max (peakAbs (List.zipWith (fun m s => m - s)
                (List.zipWith (fun a b => (a + b) / 2) l r)
                (List.zipWith (fun a b => (a - b) / 2 * width) l r))) 0) :=
            lt_trans (by norm_num) hm
          have hbound : ∀ (xs : List ℚ),
              peakAbs xs ≤ max (peakAbs (List.zipWith (fun m s => m + s)
                (List.zipWith (fun a b => (a + b) / 2) l r)
                (List.zipWith (fun a b => (a - b) / 2 * width) l r)))
                (max (peakAbs (List.zipWith (fun m s => m - s)
                  (List.zipWith (fun a b => (a + b) / 2) l r)
                  (List.zipWith (fun a b => (a - b) / 2 * width) l r))) 0) →
              peakAbs (xs.map (fun x => x / (max (peakAbs (List.zipWith (fun m s => m + s)
                (List.zipWith (fun a b => (a + b) / 2) l r)
                (List.zipWith (fun a b => (a - b) / 2 * width) l r)))
                (max (peakAbs (List.zipWith (fun m s => m - s)
                  (List.zipWith (fun a b => (a + b) / 2) l r)
                  (List.zipWith (fun a b => (a - b) / 2 * width) l r))) 0)) *
                (99/100))) ≤ 99/100 := by
            intro xs hxs
            apply peakAbs_le (by norm_num)
            intro y hy
            rcases List.mem_map.mp hy with ⟨x, hx, rfl⟩
            rw [abs_mul, abs_div, abs_of_pos hpos,
              abs_of_pos (by norm_num : (0:ℚ) < 99/100), div_mul_eq_mul_div,
              div_le_iff₀ hpos]
            calc |x| * (99/100) ≤ _ * (99/100) :=
                  mul_le_mul_of_nonneg_right
                    (le_trans (abs_le_peakAbs hx) hxs) (by norm_num)
              _ = 99/100 * _ := by ring
          show peakNp (.d2 [_, _]) ≤ 99/100
          simp only [peakNp, List.foldr_cons, List.foldr_nil]
          refine max_le (hbound _ (le_max_left _ _)) (max_le (hbound _ ?_) (by norm_num))
          exact le_trans (le_max_left _ _) (le_max_right _ _)
        · rename_i hm
          right
          show peakNp (.d2 [_, _]) ≤ 99/100
          simp only [peakNp, List.foldr_cons, List.foldr_nil]
          exact le_of_not_lt hm
      | [] => exact Or.inl rfl
      | [x] => exact Or.inl rfl
      | x :: y :: z :: rest => exact Or.inl rfl
  · exact Or.inl rfl

/-- C2 (amended): each of the six effects either returns its input
unchanged — `stereo_width` on any non-2-channel layout (mono included),
and the per-effect `try/except` failure paths (e.g. compression with
`ratio ∈ {0,1}`, reverb with `room_size < 0`, string-typed parameters) —
or produces output with `max(|output|) ≤ 0.99` exactly (hence
`≤ 0.99 + ε`).  As literally stated the claim is false: `stereo_width` on
single-channel input returns it unchanged with *no* clamp, so its output
peak is the input's peak (see the counterexample). -/
theorem c2_peak_safety (ext : ExtLib) (audio : List ℚ) (sampleRate : ℕ)
    (ps : PDict) (arr : NpArr) :
    (applyEq ext audio sampleRate ps = audio ∨
      peakAbs (applyEq ext audio sampleRate ps) ≤ 99/100) ∧
    (applyCompression ext audio sampleRate ps = audio ∨
      peakAbs (applyCompression ext audio sampleRate ps) ≤ 99/100) ∧
    (applyReverb ext audio sampleRate ps = audio ∨
      peakAbs (applyReverb ext audio sampleRate ps) ≤ 99/100) ∧
    (applyDelay ext audio sampleRate ps = audio ∨
      peakAbs (applyDelay ext audio sampleRate ps) ≤ 99/100) ∧
    (applyDistortion ext audio sampleRate ps = audio ∨
      peakAbs (applyDistortion ext audio sampleRate ps) ≤ 99/100) ∧
    (applyStereoWidth arr ps = arr ∨ peakNp (applyStereoWidth arr ps) ≤ 99/100) :=
  ⟨applyEq_input_or_clamped ext audio sampleRate ps,
   applyCompression_input_or_clamped ext audio sampleRate ps,
   applyReverb_input_or_clamped ext audio sampleRate ps,
   applyDelay_input_or_clamped ext audio sampleRate ps,
   applyDistortion_input_or_clamped ext audio sampleRate ps,
   applyStereoWidth_input_or_clamped arr ps⟩

/-- C2 counterexample: `apply_stereo_width` on the single-channel buffer
`[2]` returns it unchanged (line 827 — mono passthrough, no clamp), so the
output peak is `2`, violating `max(|output|) ≤ 0.99 + ε` for any small
`ε` (already for `ε = 0.01`). -/
theorem c2_stereo_width_mono_counterexample :
    applyStereoWidth (NpArr.d1 [2]) [("width", PVal.num 1)] = NpArr.d1 [2] ∧
    peakNp (applyStereoWidth (NpArr.d1 [2]) [("width", PVal.num 1)]) = 2 ∧
    ¬ ((2:ℚ) ≤ 99/100 + 1/100) := by
  have h1 : applyStereoWidth (NpArr.d1 [2]) [("width", PVal.num 1)] =
      NpArr.d1 [2] := rfl
  refine ⟨h1, ?_, by norm_num⟩
  rw [h1]
  show max |(2:ℚ)| 0 = 2
  rw [abs_of_nonneg (by norm_num : (0:ℚ) ≤ 2)]
  norm_num

/-! ## Claim C7: no-op parameterizations -/

theorem foldl_fixed {α β : Type} {f : α → β → α} {l : List β} {a : α}
    (h : ∀ b ∈ l, f a b = a) : l.foldl f a = a := by
  induction l with
  | nil => rfl
  | cons x xs ih =>
    rw [List.foldl_cons, h x (by simp)]
    exact ih (fun b hb => h b (by simp [hb]))

theorem zipWith_add_mul_zero (buf other : List ℚ) (h : buf.length ≤ other.length) :
    List.zipWith (fun b a => b + a * 0) buf other = buf := by
  induction buf generalizing other with
  | nil => simp
  | cons b bs ih =>
    cases other with
    | nil => simp at h
    | cons a as =>
      simp only [List.zipWith_cons_cons]
      rw [ih as (by simpa using h)]
      norm_num

theorem addTap_gain_zero (buf audio : List ℚ) (t : ℕ)
    (h : buf.length ≤ audio.length) : addTap buf audio t 0 = buf := by
  unfold addTap
  apply zipWith_add_mul_zero
  rw [List.length_append, List.length_replicate, List.length_take]
  omega

theorem zipWith_dry_passthrough (xs : List ℚ) :
    ∀ n, xs.length ≤ n →
      List.zipWith (fun a b => (1 - 0) * a + b) xs (List.replicate n (0:ℚ)) = xs := by
  induction xs with
  | nil => intro n _; simp
  | cons x xs ih =>
    intro n hn
    cases n with
    | zero => simp at hn
    | succ m =>
      simp only [List.replicate_succ, List.zipWith_cons_cons]
      rw [ih m (by simpa using hn)]
      norm_num

theorem applyEq_zero_gains (ext : ExtLib) {audio : List ℚ} (sampleRate : ℕ)
    {ps : PDict}
    (hz : ∀ kv ∈ ps, eqBands.any (fun b => b.1 = kv.1) = true → kv.2 = PVal.num 0)
    (hpk : peakAbs audio ≤ 99/100) :
    applyEq ext audio sampleRate ps = audio := by
  unfold applyEq
  have hguard : ps.any (fun kv =>
      (eqBands.any (fun b => b.1 = kv.1)) &&
      (match kv.2 with | .str _ => true | .num _ => false)) = false := by
    rw [List.any_eq_false]
    intro kv hkv
    by_cases hb : eqBands.any (fun b => b.1 = kv.1) = true
    · rw [hz kv hkv hb]
      simp
    · simp only [Bool.and_eq_true, not_and]
      intro hcon
      exact absurd hcon hb
  rw [if_neg (by rw [hguard]; exact Bool.false_ne_true)]
  have hfold : ps.foldl (fun cur kv =>
      match eqBands.find? (fun b => b.1 = kv.1), kv.2 with
      | some (band, lo, hi), .num v =>
        if v ≠ 0 then eqBandStep ext sampleRate cur band lo hi v else cur
      | _, _ => cur) audio = audio := by
    apply foldl_fixed
    intro kv hkv
    cases hf : eqBands.find? (fun b => b.1 = kv.1) with
    | none =>
      cases kv.2 <;> simp
    | some b =>
      have hmem := List.mem_of_find?_eq_some hf
      have hpb := List.find?_some hf
      have hb : eqBands.any (fun b => b.1 = kv.1) = true := by
        rw [List.any_eq_true]
        exact ⟨b, hmem, hpb⟩
      rw [hz kv hkv hb]
      obtain ⟨band, lo, hi⟩ := b
      simp
  simp only [hfold]
  exact clamp99_eq_self hpk

theorem applyDelay_mix_zero (ext : ExtLib) {audio : List ℚ} (sampleRate : ℕ)
    {ps : PDict} (hm : getNum ps "mix" (3/10) = some 0)
    (hpk : peakAbs audio ≤ 99/100) :
    applyDelay ext audio sampleRate ps = audio := by
  unfold applyDelay
  cases ht : getNum ps "time" (1/4) with
  | none => rfl
  | some delayTime =>
    cases hf : getNum ps "feedback" (3/10) with
    | none => rfl
    | some feedback =>
      rw [hm]
      have hbuf : ∀ (d : ℕ), (List.range 5).foldl (fun buf i =>
          if d * (i + 1) < audio.length then
            addTap buf audio (d * (i + 1)) (feedback ^ i * 0)
          else buf) (List.replicate audio.length 0) =
          List.replicate audio.length 0 := by
        intro d
        apply foldl_fixed
        intro i _
        by_cases hc : d * (i + 1) < audio.length
        · rw [if_pos hc, mul_zero]
          exact addTap_gain_zero _ _ _ (by simp)
        · rw [if_neg hc]
      dsimp only
      split_ifs with h0 h1
      · rw [hbuf, zipWith_dry_passthrough audio audio.length le_rfl]
        exact clamp99_eq_self hpk
      · rfl
      · have hbuf0 : (List.range 5).foldl (fun buf i =>
            addTap buf audio 0 (feedback ^ i * 0))
            (List.replicate audio.length 0) = List.replicate audio.length 0 := by
          apply foldl_fixed
          intro i _
          rw [mul_zero]
          exact addTap_gain_zero _ _ _ (by simp)
        rw [hbuf0, zipWith_dry_passthrough audio audio.length le_rfl]
        exact clamp99_eq_self hpk

theorem applyDistortion_mix_zero (ext : ExtLib) {audio : List ℚ} (sampleRate : ℕ)
    {ps : PDict} (hm : getNum ps "mix" (1/2) = some 0)
    (hpk : peakAbs audio ≤ 99/100) :
    applyDistortion ext audio sampleRate ps = audio := by
  unfold applyDistortion
  cases hd : getNum ps "drive" 2 with
  | none => rfl
  | some drive =>
    rw [hm]
    dsimp only
    have hmpos : (0:ℚ) < peakAbs audio + 1 / 10 ^ 10 := by
      have := peakAbs_nonneg audio
      positivity
    have hout : ∀ (xs : List ℚ) (m : ℚ), 0 < m →
        List.zipWith (fun n dd => ((1 - 0) * n + 0 * dd) * m)
          (xs.map (fun x => x / m))
          ((xs.map (fun x => x / m)).map (fun x => ext.tanh (x * drive))) = xs := by
      intro xs m hmne
      induction xs with
      | nil => rfl
      | cons x rest ih =>
        simp only [List.map_cons, List.zipWith_cons_cons]
        rw [ih]
        congr 1
        field_simp
    rw [hout audio _ hmpos]
    exact clamp99_eq_self hpk

/-- C7 (amended): for every input buffer **whose peak does not exceed
0.99**, EQ with all band gains 0, delay with `mix = 0`, and distortion
with `mix = 0` each return the input exactly.  As literally stated — for
*every* input buffer — the claim is false: the trailing safety clamp of
each effect rescales any input with peak above 0.99 (see the
counterexample on `[2]`). -/
theorem c7_noop_identities (ext : ExtLib) (audio : List ℚ) (sampleRate : ℕ)
    (ps1 ps2 ps3 : PDict)
    (hpk : peakAbs audio ≤ 99/100)
    (hz : ∀ kv ∈ ps1, eqBands.any (fun b => b.1 = kv.1) = true → kv.2 = PVal.num 0)
    (hm2 : getNum ps2 "mix" (3/10) = some 0)
    (hm3 : getNum ps3 "mix" (1/2) = some 0) :
    applyEq ext audio sampleRate ps1 = audio ∧
    applyDelay ext audio sampleRate ps2 = audio ∧
    applyDistortion ext audio sampleRate ps3 = audio :=
  ⟨applyEq_zero_gains ext sampleRate hz hpk,
   applyDelay_mix_zero ext sampleRate hm2 hpk,
   applyDistortion_mix_zero ext sampleRate hm3 hpk⟩

theorem c7_noop_witness :
    peakAbs [(1/2 : ℚ)] ≤ 99/100 ∧
    getNum [("mix", PVal.num 0)] "mix" (3/10) = some 0 ∧
    getNum [("mix", PVal.num 0)] "mix" (1/2) = some 0 ∧
    (applyEq extTriv [(1/2 : ℚ)] 44100 [("low", PVal.num 0)] = [(1/2 : ℚ)] ∧
     applyDelay extTriv [(1/2 : ℚ)] 44100 [("mix", PVal.num 0)] = [(1/2 : ℚ)] ∧
     applyDistortion extTriv [(1/2 : ℚ)] 44100 [("mix", PVal.num 0)] = [(1/2 : ℚ)]) := by
  have hpk : peakAbs [(1/2 : ℚ)] ≤ 99/100 := by
    simp only [peakAbs, List.foldr_cons, List.foldr_nil]
    refine max_le ?_ (by norm_num)
    rw [abs_of_nonneg (by norm_num : (0:ℚ) ≤ 1/2)]
    norm_num
  have hz : ∀ kv ∈ [("low", PVal.num 0)],
      eqBands.any (fun b => b.1 = kv.1) = true → kv.2 = PVal.num 0 := by
    intro kv hkv _
    rw [List.mem_singleton] at hkv
    rw [hkv]
  have hm2 : getNum [("mix", PVal.num 0)] "mix" (3/10) = some 0 := rfl
  have hm3 : getNum [("mix", PVal.num 0)] "mix" (1/2) = some 0 := rfl
  exact ⟨hpk, hm2, hm3,
    c7_noop_identities extTriv [(1/2 : ℚ)] 44100 _ _ _ hpk hz hm2 hm3⟩

/-- C7 counterexample: on the buffer `[2]` (peak above 0.99), EQ with all
five band gains set to 0 does not return its input: the final safety clamp
rescales it to `[0.99]`. -/
theorem c7_clamp_rescale_counterexample :
    applyEq extTriv [2] 44100
      [("low", PVal.num 0), ("low_mid", PVal.num 0), ("mid", PVal.num 0),
       ("high_mid", PVal.num 0), ("high", PVal.num 0)] = [99/100] ∧
    ((99/100 : ℚ) ≠ 2) := by
  refine ⟨?_, by norm_num⟩
  have hg : ([("low", PVal.num 0), ("low_mid", PVal.num 0), ("mid", PVal.num 0),
      ("high_mid", PVal.num 0), ("high", PVal.num 0)].any (fun kv =>
      (eqBands.any (fun b => b.1 = kv.1)) &&
      (match kv.2 with | .str _ => true | .num _ => false))) = false := rfl
  unfold applyEq
  rw [if_neg (by rw [hg]; exact Bool.false_ne_true)]
  have hfold : List.foldl (fun cur kv =>
      match eqBands.find? (fun b => b.1 = kv.1), kv.2 with
      | some (band, lo, hi), .num v =>
        if v ≠ 0 then eqBandStep extTriv 44100 cur band lo hi v else cur
      | _, _ => cur) [2]
      [("low", PVal.num 0), ("low_mid", PVal.num 0), ("mid", PVal.num 0),
       ("high_mid", PVal.num 0), ("high", PVal.num 0)] = [2] := by
    apply foldl_fixed
    intro kv hkv
    simp only [List.mem_cons, List.not_mem_nil, or_false] at hkv
    rcases hkv with rfl | rfl | rfl | rfl | rfl <;> simp [eqBands, List.find?]
  simp only [hfold]
  have hpeak : peakAbs [2] = 2 := by
    simp only [peakAbs, List.foldr_cons, List.foldr_nil]
    rw [abs_two]
    exact max_eq_left (by norm_num)
  unfold clamp99
  rw [hpeak, if_pos (by norm_num : (2:ℚ) > 99/100)]
  norm_num

/-! ## Claim C6: the limiter -/

theorem limGainStep_bounds {thrLin : ℚ} (releaseS : ℤ) {prev lvl : ℚ}
    (hthr : 0 < thrLin) (hrs : 0 ≤ releaseS) (h0 : 0 ≤ prev) (h1 : prev ≤ 1) :
    0 ≤ limGainStep thrLin releaseS prev lvl ∧
    limGainStep thrLin releaseS prev lvl ≤ 1 ∧
    limGainStep thrLin releaseS prev lvl ≤
      (if lvl > thrLin then thrLin / lvl else 1) := by
  unfold limGainStep
  have htarget0 : 0 ≤ (if lvl > thrLin then thrLin / lvl else 1) := by
    split_ifs with h
    · exact le_of_lt (div_pos hthr (lt_trans hthr h))
    · norm_num
  have htarget1 : (if lvl > thrLin then thrLin / lvl else 1) ≤ 1 := by
    split_ifs with h
    · rw [div_le_one (lt_trans hthr h)]
      exact le_of_lt h
    · exact le_refl 1
  have hcand0 : 0 ≤ (if releaseS = 0 then 1
      else min 1 (prev + (1 - prev) / (releaseS : ℚ))) := by
    split_ifs with h
    · norm_num
    · have hrpos : (0:ℚ) < (releaseS : ℚ) := by
        have : 0 < releaseS := lt_of_le_of_ne hrs (Ne.symm h)
        exact_mod_cast this
      refine le_min (by norm_num) ?_
      have : 0 ≤ (1 - prev) / (releaseS : ℚ) :=
        div_nonneg (by linarith) (le_of_lt hrpos)
      linarith
  refine ⟨le_min hcand0 htarget0, le_trans (min_le_right _ _) htarget1,
    min_le_right _ _⟩

theorem target_mul_bound {thrLin y gg : ℚ} (hthr : 0 < thrLin) (hg0 : 0 ≤ gg)
    (hgt : gg ≤ (if |y| > thrLin then thrLin / |y| else 1)) :
    |y * gg| ≤ thrLin := by
  rw [abs_mul, abs_of_nonneg hg0]
  by_cases h : |y| > thrLin
  · rw [if_pos h] at hgt
    calc |y| * gg ≤ |y| * (thrLin / |y|) :=
          mul_le_mul_of_nonneg_left hgt (abs_nonneg y)
      _ = thrLin := by
          have hy : |y| ≠ 0 := ne_of_gt (lt_trans hthr h)
          field_simp
  · rw [if_neg h] at hgt
    push_neg at h
    calc |y| * gg ≤ |y| * 1 := mul_le_mul_of_nonneg_left hgt (abs_nonneg y)
      _ = |y| := mul_one _
      _ ≤ thrLin := h

theorem mem_zipWith_mul {l1 l2 : List ℚ} {x : ℚ}
    (hx : x ∈ List.zipWith (fun a b => a * b) l1 l2) :
    ∃ p ∈ List.zip l1 l2, x = p.1 * p.2 := by
  induction l1 generalizing l2 with
  | nil => simp at hx
  | cons a as ih =>
    cases l2 with
    | nil => simp at hx
    | cons b bs =>
      rw [List.zipWith_cons_cons] at hx
      rcases List.mem_cons.mp hx with rfl | hx
      · exact ⟨(a, b), by simp⟩
      · obtain ⟨p, hp, hpx⟩ := ih hx
        exact ⟨p, by simp [hp], hpx⟩

theorem limGainsAux_zip_bound {thrLin : ℚ} {releaseS : ℤ}
    (hthr : 0 < thrLin) (hrs : 0 ≤ releaseS) :
    ∀ (ys : List ℚ) (prev : ℚ), 0 ≤ prev → prev ≤ 1 →
    ∀ p ∈ List.zip ys (limGains.limGainsAux thrLin releaseS prev ys),
      |p.1 * p.2| ≤ thrLin := by
  intro ys
  induction ys with
  | nil => intro prev _ _ p hp; simp [limGains.limGainsAux] at hp
  | cons y ys ih =>
    intro prev h0 h1 p hp
    rw [limGains.limGainsAux] at hp
    simp only [List.zip_cons_cons] at hp
    obtain ⟨hg0, hg1, hgt⟩ :=
      @limGainStep_bounds thrLin releaseS prev |y| hthr hrs h0 h1
    rcases List.mem_cons.mp hp with rfl | hp
    · exact target_mul_bound hthr hg0 hgt
    · exact ih _ hg0 hg1 p hp

theorem limGains_zip_bound {thrLin : ℚ} {releaseS : ℤ}
    (hthr : 0 < thrLin) (hrs : 0 ≤ releaseS) (ys : List ℚ) :
    ∀ p ∈ List.zip ys (limGains thrLin releaseS ys), |p.1 * p.2| ≤ thrLin := by
  intro p hp
  cases ys with
  | nil => simp [limGains] at hp
  | cons y ys =>
    rw [limGains] at hp
    simp only [List.zip_cons_cons] at hp
    have ht0 : 0 ≤ (if |y| > thrLin then thrLin / |y| else 1) ∧
        (if |y| > thrLin then thrLin / |y| else 1) ≤ 1 := by
      constructor
      · split_ifs with h
        · exact le_of_lt (div_pos hthr (lt_trans hthr h))
        · norm_num
      · split_ifs with h
        · rw [div_le_one (lt_trans hthr h)]
          exact le_of_lt h
        · exact le_refl 1
    rcases List.mem_cons.mp hp with rfl | hp
    · exact target_mul_bound hthr ht0.1 le_rfl
    · exact limGainsAux_zip_bound hthr hrs ys _ ht0.1 ht0.2 p hp

theorem limGainsAux_chain {thrLin : ℚ} {releaseS : ℤ} (hrs : releaseS ≠ 0) :
    ∀ (ys : List ℚ) (prev : ℚ),
    List.Chain' (fun a b => b ≤ a + (1 - a) / (releaseS : ℚ))
      (prev :: limGains.limGainsAux thrLin releaseS prev ys) := by
  intro ys
  induction ys with
  | nil =>
    intro prev
    simp [limGains.limGainsAux]
  | cons y ys ih =>
    intro prev
    rw [limGains.limGainsAux]
    refine List.Chain'.cons ?_ (ih _)
    unfold limGainStep
    rw [if_neg hrs]
    exact le_trans (min_le_left _ _) (le_trans (min_le_right _ _) le_rfl)

/-- C6 (amended): with limiter parameters `(gain, threshold, release)` and
**nonnegative** `release_samples = int(release * sample_rate / 1000)`,
every output sample of `apply_limiter` satisfies
`|output[i]| ≤ threshold_linear = 10**(threshold/20)`; and whenever
`release_samples ≠ 0`, consecutive gain-reduction values satisfy
`gain[i+1] ≤ gain[i] + (1 - gain[i]) / release_samples` (recovery no
faster than the configured release).  As literally stated — for *every*
release — the claim is false: a negative `release` drives the
gain-reduction follower negative and the output above threshold (see the
counterexample); for `release_samples = 0` the release-step bound is the
float `inf`, which the exact model cannot state. -/
theorem c6_limiter_threshold_and_release (ext : ExtLib) (audio : List ℚ)
    (sampleRate : ℕ) (g θ r : ℚ)
    (hrel : 0 ≤ pyInt (r * sampleRate / 1000)) :
    (∀ x ∈ applyLimiter ext audio sampleRate
        [("gain", PVal.num g), ("threshold", PVal.num θ), ("release", PVal.num r)],
      |x| ≤ ext.exp10 (θ / 20)) ∧
    (pyInt (r * sampleRate / 1000) ≠ 0 →
      List.Chain' (fun a b => b ≤ a + (1 - a) / ((pyInt (r * sampleRate / 1000) : ℤ) : ℚ))
        (limGains (ext.exp10 (θ / 20)) (pyInt (r * sampleRate / 1000))
          (audio.map (fun x => x * ext.exp10 (g / 20))))) := by
  have happ : applyLimiter ext audio sampleRate
      [("gain", PVal.num g), ("threshold", PVal.num θ), ("release", PVal.num r)] =
      List.zipWith (fun y gg => y * gg)
        (audio.map (fun x => x * ext.exp10 (g / 20)))
        (limGains (ext.exp10 (θ / 20)) (pyInt (r * sampleRate / 1000))
          (audio.map (fun x => x * ext.exp10 (g / 20)))) := rfl
  constructor
  · intro x hx
    rw [happ] at hx
    obtain ⟨p, hp, rfl⟩ := mem_zipWith_mul hx
    exact limGains_zip_bound (ext.exp10_pos _) hrel _ p hp
  · intro h0
    cases hmap : audio.map (fun x => x * ext.exp10 (g / 20)) with
    | nil => simp [limGains]
    | cons y ys =>
      rw [limGains]
      exact limGainsAux_chain h0 ys _

theorem c6_limiter_witness :
    (0 ≤ pyInt ((50:ℚ) * ((1000:ℕ) : ℚ) / 1000)) ∧
    (pyInt ((50:ℚ) * ((1000:ℕ) : ℚ) / 1000) ≠ 0) ∧
    (∀ x ∈ applyLimiter extTriv [4, 4] 1000
        [("gain", PVal.num 0), ("threshold", PVal.num 0), ("release", PVal.num 50)],
      |x| ≤ extTriv.exp10 ((0:ℚ) / 20)) ∧
    List.Chain' (fun a b => b ≤ a + (1 - a) / ((pyInt ((50:ℚ) * ((1000:ℕ) : ℚ) / 1000) : ℤ) : ℚ))
      (limGains (extTriv.exp10 ((0:ℚ) / 20)) (pyInt ((50:ℚ) * ((1000:ℕ) : ℚ) / 1000))
        ([4, 4].map (fun x => x * extTriv.exp10 ((0:ℚ) / 20)))) := by
  have h1 : (0:ℤ) ≤ pyInt ((50:ℚ) * ((1000:ℕ) : ℚ) / 1000) := by norm_num [pyInt]
  have h2 : pyInt ((50:ℚ) * ((1000:ℕ) : ℚ) / 1000) ≠ 0 := by norm_num [pyInt]
  have h := c6_limiter_threshold_and_release extTriv [4, 4] 1000 0 0 50 h1
  exact ⟨h1, h2, h.1, h.2 h2⟩

/-- C6 counterexample: with `release = -1` at sample rate 1000
(`release_samples = -1`), gain 0 dB and threshold 0 dB
(`threshold_linear = 10**0 = 1`, and `extTriv.exp10` agrees with `10**x`
at 0), the input `[4, 4]` produces output `[1, -2]`: the second sample has
`|−2| = 2 > 1 = threshold_linear`, so the limiter *does* leave a sample
above threshold. -/
theorem c6_negative_release_counterexample :
    applyLimiter extTriv [4, 4] 1000
      [("gain", PVal.num 0), ("threshold", PVal.num 0), ("release", PVal.num (-1))] =
      [1, -2] ∧
    extTriv.exp10 ((0:ℚ) / 20) = 1 ∧
    ¬ (∀ x ∈ applyLimiter extTriv [4, 4] 1000
        [("gain", PVal.num 0), ("threshold", PVal.num 0), ("release", PVal.num (-1))],
      |x| ≤ extTriv.exp10 ((0:ℚ) / 20)) := by
  have hrs : pyInt ((-1:ℚ) * ((1000:ℕ) : ℚ) / 1000) = -1 := by norm_num [pyInt]
  have happ : applyLimiter extTriv [4, 4] 1000
      [("gain", PVal.num 0), ("threshold", PVal.num 0), ("release", PVal.num (-1))] =
      List.zipWith (fun y gg => y * gg)
        ([4, 4].map (fun x => x * 1))
        (limGains 1 (pyInt ((-1:ℚ) * ((1000:ℕ) : ℚ) / 1000))
          ([4, 4].map (fun x => x * 1))) := rfl
  have hmap : ([4, 4].map (fun x : ℚ => x * 1)) = [4, 4] := by norm_num
  have hgains : limGains 1 (-1 : ℤ) [4, 4] = [1/4, -1/2] := by
    rw [limGains]
    have habs : |(4:ℚ)| = 4 := by rw [abs_of_nonneg]; norm_num
    rw [limGains.limGainsAux]
    rw [limGains.limGainsAux]
    have ht : ((|(4:ℚ)| > 1)) := by rw [habs]; norm_num
    rw [if_pos ht]
    have hstep : limGainStep 1 (-1) (1 / |(4:ℚ)|) |(4:ℚ)| = -1/2 := by
      unfold limGainStep
      rw [if_pos ht, if_neg (by norm_num : (-1 : ℤ) ≠ 0), habs]
      norm_num
    rw [hstep, habs]
  refine ⟨?_, rfl, ?_⟩
  · rw [happ, hmap, hrs, hgains]
    norm_num
  · intro hcon
    have h2 : (-2 : ℚ) ∈ applyLimiter extTriv [4, 4] 1000
        [("gain", PVal.num 0), ("threshold", PVal.num 0), ("release", PVal.num (-1))] := by
      rw [happ, hmap, hrs, hgains]
      norm_num
    have := hcon (-2) h2
    rw [abs_of_nonpos (by norm_num : (-2:ℚ) ≤ 0)] at this
    norm_num [extTriv] at this

/-! ## Claim C4: the bass + small-room-reverb scenario -/

/-- C4: compiling `"make the bass louder and add a small room reverb"`
(with any analysis input) produces a chain with exactly one `eq` spec,
whose `low` parameter is `2 > 0`, and exactly one `reverb` spec, whose
`room_size` is `0.3 ≤ 0.4`.  (The chain also contains a `limiter` spec —
`"louder"` triggers the loudness topic — which the claim permits.) -/
theorem c4_bass_small_room_scenario (a : Option AudioAnalysis) :
    ((parseInstructions "make the bass louder and add a small room reverb" a).filter
        (fun e => e.type = "eq")).length = 1 ∧
    (∀ e ∈ parseInstructions "make the bass louder and add a small room reverb" a,
      e.type = "eq" → ∃ q, getNum e.parameters "low" 0 = some q ∧ 0 < q) ∧
    ((parseInstructions "make the bass louder and add a small room reverb" a).filter
        (fun e => e.type = "reverb")).length = 1 ∧
    (∀ e ∈ parseInstructions "make the bass louder and add a small room reverb" a,
      e.type = "reverb" →
        ∃ q, getNum e.parameters "room_size" 0 = some q ∧ q ≤ 4/10) := by
  have h : parseInstructions "make the bass louder and add a small room reverb" a =
      [⟨"eq", [("low", PVal.num 2)]⟩,
       ⟨"reverb", [("room_size", PVal.num (3/10)), ("damping", PVal.num (1/2)),
                   ("wet_level", PVal.num (25/100)), ("dry_level", PVal.num (7/10))]⟩,
       ⟨"limiter", [("gain", PVal.num 6), ("threshold", PVal.num (-3/10)),
                    ("release", PVal.num 50)]⟩] := rfl
  rw [h]
  refine ⟨rfl, ?_, rfl, ?_⟩
  · intro e he htype
    simp only [List.mem_cons, List.not_mem_nil, or_false] at he
    rcases he with rfl | rfl | rfl
    · exact ⟨2, rfl, by norm_num⟩
    · exact absurd htype (by decide)
    · exact absurd htype (by decide)
  · intro e he htype
    simp only [List.mem_cons, List.not_mem_nil, or_false] at he
    rcases he with rfl | rfl | rfl
    · exact absurd htype (by decide)
    · exact ⟨3/10, rfl, by norm_num⟩
    · exact absurd htype (by decide)

/-! ## Claim C10: unknown effect tags are skipped silently -/

theorem processChainLoop_filter (ext : ExtLib)
    (describe : String → PDict → Except String String) (sampleRate : ℕ) :
    ∀ (chain : List EffectSpec) (cur : List ℚ),
      processChainLoop ext describe sampleRate chain cur =
        processChainLoop ext describe sampleRate
          (chain.filter (fun s => supportedEffects.contains s.type)) cur := by
  intro chain
  induction chain with
  | nil => intro cur; rfl
  | cons spec rest ih =>
    intro cur
    by_cases h : supportedEffects.contains spec.type
    · simp only [List.filter_cons, h, if_true]
      simp only [processChainLoop, h, if_true]
      cases hdf : describe spec.type spec.parameters with
      | error e => rfl
      | ok d =>
        rw [ih]
    · simp only [List.filter_cons, h, if_false, Bool.false_eq_true]
      simp only [processChainLoop, h, if_false, Bool.false_eq_true]
      exact ih cur

/-- C10: for every explicit effect chain, `process_audio` behaves exactly
as on the chain with the unsupported-tag specs removed: unknown tags are
skipped silently — same returned audio, no processing-step description for
the unknown spec, no error (lines 458-468: the loop only acts when
`effect_type in self.supported_effects`). -/
theorem c10_unknown_effects_skipped (ext : ExtLib)
    (describe : String → PDict → Except String String) (audio : List ℚ)
    (sampleRate : ℕ) (chain : List EffectSpec) :
    processAudio ext describe audio sampleRate chain =
      processAudio ext describe audio sampleRate
        (chain.filter (fun s => supportedEffects.contains s.type)) := by
  unfold processAudio
  rw [processChainLoop_filter]

/-! ## Claim C8: TTL expiry and lookup -/

theorem alistFind_filter_none {α : Type} :
    ∀ {idx : List (String × α)} {key : String} {e : α},
    (idx.map Prod.fst).Nodup →
    alistFind idx key = some e →
    ∀ {keep : String × α → Bool}, keep (key, e) = false →
    alistFind (idx.filter keep) key = none := by
  intro idx
  induction idx with
  | nil => intro key e _ he; cases he
  | cons kv rest ih =>
    intro key e hnd he keep hkeep
    obtain ⟨k, v⟩ := kv
    rw [List.map_cons, List.nodup_cons] at hnd
    by_cases hk : k = key
    · subst hk
      have hfound : List.find? (fun kv => kv.1 = k) ((k, v) :: rest) = some (k, v) :=
        List.find?_cons_of_pos _ (by simp)
      have hev : v = e := by
        unfold alistFind at he
        rw [hfound] at he
        simpa using he
      subst hev
      rw [List.filter_cons, if_neg (by rw [hkeep]; exact Bool.false_ne_true)]
      unfold alistFind
      have hnone : List.find? (fun kv => kv.1 = k) (rest.filter keep) = none := by
        rw [List.find?_eq_none]
        intro x hx
        simp only [decide_eq_true_eq]
        intro hcon
        apply hnd.1
        have hxm : x.1 ∈ List.map Prod.fst rest :=
          List.mem_map_of_mem Prod.fst (List.mem_of_mem_filter hx)
        rw [hcon] at hxm
        exact hxm
      rw [hnone]
      rfl
    · have he2 : alistFind rest key = some e := by
        unfold alistFind at he
        rw [List.find?_cons_of_neg _ (by simp [hk])] at he
        exact he
      have hres := ih hnd.2 he2 hkeep
      rw [List.filter_cons]
      by_cases hkv : keep (k, v) = true
      · rw [if_pos hkv]
        unfold alistFind at hres ⊢
        rw [List.find?_cons_of_neg _ (by simp [hk])]
        exact hres
      · rw [if_neg hkv]
        exact hres

/-- C8 (amended): a cache entry whose payload file exists is returned by
`get_processed_audio` regardless of its age — there is no expiry check on
read; expired entries become unreachable only after the cleaning sweep
`_clean_old_cache` has run, which removes every entry older than the
7-day TTL.  As literally stated the claim is false: before the sweep runs,
a lookup of a TTL-expired entry is a hit, not a miss (see the
counterexample). -/
theorem c8_ttl_expiry_only_after_sweep :
    (∀ (s : CacheState) (key : String) (e : CacheEntry) (p : List ℚ × ℕ),
      alistFind s.audioIndex key = some e →
      alistFind s.audioFiles e.filename = some p →
      (getProcessedAudio key s).1 = some p) ∧
    (∀ (s : CacheState) (key : String) (e : CacheEntry) (now : ℚ),
      (s.audioIndex.map Prod.fst).Nodup →
      alistFind s.audioIndex key = some e →
      now - e.timestamp > 604800 →
      (getProcessedAudio key (cleanOldCache now s)).1 = none) := by
  constructor
  · intro s key e p he hp
    simp only [getProcessedAudio, he, hp]
  · intro s key e now hnd he hexp
    have hkeep : (fun kv : String × CacheEntry =>
        (decide (¬ now - kv.2.timestamp > 7 * 24 * 60 * 60))) (key, e) = false := by
      simp only [decide_eq_false_iff_not, not_not]
      norm_num
      linarith
    have hfind : alistFind ((cleanOldCache now s).audioIndex) key = none := by
      unfold cleanOldCache cleanNamespace
      exact alistFind_filter_none hnd he hkeep
    unfold getProcessedAudio
    rw [hfind]

theorem c8_ttl_sweep_witness :
    (([("k", CacheEntry.mk "k.wav" 0)].map Prod.fst).Nodup) ∧
    alistFind [("k", CacheEntry.mk "k.wav" 0)] "k" = some (CacheEntry.mk "k.wav" 0) ∧
    ((10^6 : ℚ) - (0:ℚ) > 604800) ∧
    (getProcessedAudio "k" (cleanOldCache (10^6)
      ⟨[("k", CacheEntry.mk "k.wav" 0)], [], [],
       [("k.wav", ([1], 44100))], [], [], 0, 0⟩)).1 = none ∧
    (getProcessedAudio "k"
      ⟨[("k", CacheEntry.mk "k.wav" 0)], [], [],
       [("k.wav", ([1], 44100))], [], [], 0, 0⟩).1 = some ([1], 44100) := by
  refine ⟨by simp, rfl, by norm_num, ?_, ?_⟩
  · exact c8_ttl_expiry_only_after_sweep.2
      ⟨[("k", CacheEntry.mk "k.wav" 0)], [], [],
       [("k.wav", ([1], 44100))], [], [], 0, 0⟩
      "k" (CacheEntry.mk "k.wav" 0) (10^6) (by simp) rfl (by norm_num)
  · exact c8_ttl_expiry_only_after_sweep.1
      ⟨[("k", CacheEntry.mk "k.wav" 0)], [], [],
       [("k.wav", ([1], 44100))], [], [], 0, 0⟩
      "k" (CacheEntry.mk "k.wav" 0) ([1], 44100) rfl rfl

/-- C8 counterexample: an entry created at time 0 looked up at time 10^6
(far past the 7-day TTL of 604800 seconds) is *returned as a hit* because
`get_processed_audio` (lines 147-157) never consults the timestamp; the
claim's promised miss does not happen when the sweep has not run. -/
theorem c8_expired_entry_still_hits_counterexample :
    ((10^6 : ℚ) - (0:ℚ) > 604800) ∧
    (getProcessedAudio "k"
      ⟨[("k", CacheEntry.mk "k.wav" 0)], [], [],
       [("k.wav", ([1], 44100))], [], [], 0, 0⟩).1 = some ([1], 44100) ∧
    (some (([1] : List ℚ), (44100:ℕ)) ≠ none) := by
  exact ⟨by norm_num, rfl, by simp⟩

/-! ## Claim C9: hit/miss counters -/

theorem cacheStep_counters_mono (op : CacheOp) (s : CacheState) :
    s.hits ≤ (cacheStep op s).hits ∧ s.misses ≤ (cacheStep op s).misses := by
  cases op with
  | getAudio k =>
    show s.hits ≤ (getProcessedAudio k s).2.hits ∧
      s.misses ≤ (getProcessedAudio k s).2.misses
    cases h1 : alistFind s.audioIndex k with
    | none =>
      simp only [getProcessedAudio, h1]
      exact ⟨le_refl _, Nat.le_succ _⟩
    | some e =>
      cases h2 : alistFind s.audioFiles e.filename with
      | none =>
        simp only [getProcessedAudio, h1, h2]
        exact ⟨le_refl _, Nat.le_succ _⟩
      | some p =>
        simp only [getProcessedAudio, h1, h2]
        exact ⟨Nat.le_succ _, le_refl _⟩
  | getAnalysis fid =>
    show s.hits ≤ (getAudioAnalysis fid s).2.hits ∧
      s.misses ≤ (getAudioAnalysis fid s).2.misses
    cases h1 : alistFind s.analysisIndex ("analysis_" ++ fid) with
    | none =>
      simp only [getAudioAnalysis, h1]
      exact ⟨le_refl _, Nat.le_succ _⟩
    | some e =>
      cases h2 : alistFind s.analysisFiles e.filename with
      | none =>
        simp only [getAudioAnalysis, h1, h2]
        exact ⟨le_refl _, Nat.le_succ _⟩
      | some p =>
        simp only [getAudioAnalysis, h1, h2]
        exact ⟨Nat.le_succ _, le_refl _⟩
  | getWaveform fid pts =>
    show s.hits ≤ (getWaveformData fid pts s).2.hits ∧
      s.misses ≤ (getWaveformData fid pts s).2.misses
    cases h1 : alistFind s.waveformIndex ("waveform_" ++ fid ++ "_" ++ toString pts) with
    | none =>
      simp only [getWaveformData, h1]
      exact ⟨le_refl _, Nat.le_succ _⟩
    | some e =>
      cases h2 : alistFind s.waveformFiles e.filename with
      | none =>
        simp only [getWaveformData, h1, h2]
        exact ⟨le_refl _, Nat.le_succ _⟩
      | some p =>
        simp only [getWaveformData, h1, h2]
        exact ⟨Nat.le_succ _, le_refl _⟩
  | putAudio k p now => exact ⟨le_refl _, le_refl _⟩
  | putAnalysis fid p now => exact ⟨le_refl _, le_refl _⟩
  | putWaveform fid pts p now => exact ⟨le_refl _, le_refl _⟩
  | clean now => exact ⟨le_refl _, le_refl _⟩
  | clear => exact ⟨le_refl _, le_refl _⟩
  | stats => exact ⟨le_refl _, le_refl _⟩

/-- C9 (amended): the hit and miss counters never decrease across any
sequence of cache operations — but `clear()` does *not* reset them: it
empties the three index namespaces and leaves both counters untouched
(lines 364-391 never assign `self.hits`/`self.misses`).  As literally
stated ("clear() resets both counters to zero") the claim is false; no
operation resets the counters. -/
theorem c9_counters_monotone_clear_no_reset :
    (∀ (op : CacheOp) (s : CacheState),
      s.hits ≤ (cacheStep op s).hits ∧ s.misses ≤ (cacheStep op s).misses) ∧
    (∀ (ops : List CacheOp) (s : CacheState),
      s.hits ≤ (cacheRun ops s).hits ∧ s.misses ≤ (cacheRun ops s).misses) ∧
    (∀ s : CacheState,
      (cacheStep CacheOp.clear s).hits = s.hits ∧
      (cacheStep CacheOp.clear s).misses = s.misses ∧
      (cacheStep CacheOp.clear s).audioIndex = [] ∧
      (cacheStep CacheOp.clear s).analysisIndex = [] ∧
      (cacheStep CacheOp.clear s).waveformIndex = []) := by
  refine ⟨cacheStep_counters_mono, ?_, ?_⟩
  · intro ops
    induction ops with
    | nil => intro s; exact ⟨le_refl _, le_refl _⟩
    | cons op rest ih =>
      intro s
      have h1 := cacheStep_counters_mono op s
      have h2 := ih (cacheStep op s)
      exact ⟨le_trans h1.1 h2.1, le_trans h1.2 h2.2⟩
  · intro s
    exact ⟨rfl, rfl, rfl, rfl, rfl⟩

/-- C9 counterexample: from a fresh cache, one miss then `clear()` leaves
the miss counter at 1, not 0 — `clear_cache` never resets the counters. -/
theorem c9_clear_does_not_reset_counterexample :
    (cacheRun [CacheOp.getAudio "k", CacheOp.clear] initCacheState).misses = 1 ∧
    (1 : ℕ) ≠ 0 :=
  ⟨rfl, by decide⟩

theorem c4_bass_small_room_witness :
    ((parseInstructions "make the bass louder and add a small room reverb" none).filter
        (fun e => e.type = "eq")).length = 1 ∧
    ((⟨"eq", [("low", PVal.num 2)]⟩ : EffectSpec) ∈
      parseInstructions "make the bass louder and add a small room reverb" none) ∧
    (∃ q, getNum ([("low", PVal.num 2)] : PDict) "low" 0 = some q ∧ 0 < q) ∧
    ((⟨"reverb", [("room_size", PVal.num (3/10)), ("damping", PVal.num (1/2)),
        ("wet_level", PVal.num (25/100)), ("dry_level", PVal.num (7/10))]⟩ : EffectSpec) ∈
      parseInstructions "make the bass louder and add a small room reverb" none) ∧
    (∃ q, getNum ([("room_size", PVal.num (3/10)), ("damping", PVal.num (1/2)),
        ("wet_level", PVal.num (25/100)), ("dry_level", PVal.num (7/10))] : PDict)
      "room_size" 0 = some q ∧ q ≤ 4/10) := by
  have h := c4_bass_small_room_scenario none
  have hch : parseInstructions "make the bass louder and add a small room reverb" none =
      [⟨"eq", [("low", PVal.num 2)]⟩,
       ⟨"reverb", [("room_size", PVal.num (3/10)), ("damping", PVal.num (1/2)),
                   ("wet_level", PVal.num (25/100)), ("dry_level", PVal.num (7/10))]⟩,
       ⟨"limiter", [("gain", PVal.num 6), ("threshold", PVal.num (-3/10)),
                    ("release", PVal.num 50)]⟩] := rfl
  have hmem1 : (⟨"eq", [("low", PVal.num 2)]⟩ : EffectSpec) ∈
      parseInstructions "make the bass louder and add a small room reverb" none := by
    rw [hch]
    exact List.mem_cons_self _ _
  have hmem2 : (⟨"reverb", [("room_size", PVal.num (3/10)), ("damping", PVal.num (1/2)),
      ("wet_level", PVal.num (25/100)), ("dry_level", PVal.num (7/10))]⟩ : EffectSpec) ∈
      parseInstructions "make the bass louder and add a small room reverb" none := by
    rw [hch]
    exact List.mem_cons_of_mem _ (List.mem_cons_self _ _)
  exact ⟨h.1, hmem1, h.2.1 _ hmem1 rfl, hmem2, h.2.2.2 _ hmem2 rfl⟩
